import Mathlib

/-!
Shallow embedding of the color-quantization core of `src/colorz.py`.
Python floats are modelled as exact rationals.
-/

namespace Colorz

/-- Constant `SCALE = 256.0` (src/colorz.py line 41). -/
def SCALE : ℚ := 256

/-- Python `int(q)`: truncation toward zero. -/
def pyInt (q : ℚ) : ℤ := if 0 ≤ q then ⌊q⌋ else ⌈q⌉

/-- Python float `a % b` for `b > 0`: `a - b * floor (a / b)`. -/
def pyMod (a b : ℚ) : ℚ := a - b * ⌊a / b⌋

/-- Function `down_scale(x) = x / SCALE` (line 44). -/
def down_scale (x : ℚ) : ℚ := x / SCALE

/-- Function `up_scale(x) = int(x * SCALE)` (line 48). -/
def up_scale (x : ℚ) : ℤ := pyInt (x * SCALE)

/-- CPython's `colorsys.rgb_to_hsv`, imported at line 25. -/
def rgb_to_hsv (r g b : ℚ) : ℚ × ℚ × ℚ :=
  let maxc := max r (max g b)
  let minc := min r (min g b)
  let rangec := maxc - minc
  let v := maxc
  if minc = maxc then (0, 0, v)
  else
    let s := rangec / maxc
    let rc := (maxc - r) / rangec
    let gc := (maxc - g) / rangec
    let bc := (maxc - b) / rangec
    let h :=
      if r = maxc then bc - gc
      else if g = maxc then 2 + rc - bc
      else 4 + gc - rc
    (pyMod (h / 6) 1, s, v)

/-- CPython's `colorsys.hsv_to_rgb`, imported at line 25.
`i = int(h*6.0)` truncates toward zero; `i % 6` is Python int mod (`Int.emod`).
The trailing branch is `i = 5`; `i % 6` always lands in `{0, ..., 5}`. -/
def hsv_to_rgb (h s v : ℚ) : ℚ × ℚ × ℚ :=
  if s = 0 then (v, v, v)
  else
    let i0 := pyInt (h * 6)
    let f := h * 6 - i0
    let p := v * (1 - s)
    let q := v * (1 - s * f)
    let t := v * (1 - s * (1 - f))
    let i := Int.emod i0 6
    if i = 0 then (v, t, p)
    else if i = 1 then (q, v, p)
    else if i = 2 then (p, v, t)
    else if i = 3 then (p, q, v)
    else if i = 4 then (t, p, v)
    else (v, p, q)

/-- Rational color triples (Python float triples). -/
abbrev Q3 : Type := ℚ × ℚ × ℚ

/-- Integer RGB triples (Python int tuples). -/
abbrev RGBi : Type := ℤ × ℤ × ℤ

/-- Casting an int tuple to floats (`array(...).astype(float)` and Python's
implicit int-to-float arithmetic). -/
def toQ3 (c : RGBi) : Q3 := ((c.1 : ℚ), (c.2.1 : ℚ), (c.2.2 : ℚ))

/-- Python's `tuple(map(up_scale, ...))` applied to a float triple. -/
def up3 (c : Q3) : RGBi := (up_scale c.1, up_scale c.2.1, up_scale c.2.2)

/-- Function `clamp(color, min_v, max_v)` (lines 64-71). -/
def clamp (color : Q3) (min_v max_v : ℚ) : RGBi :=
  let hsv := rgb_to_hsv (down_scale color.1) (down_scale color.2.1) (down_scale color.2.2)
  let mn := down_scale min_v
  let mx := down_scale max_v
  let v := min (max mn hsv.2.2) mx
  up3 (hsv_to_rgb hsv.1 hsv.2.1 v)

/-- Function `order_by_hue(colors)` (lines 74-80).  Python's `list.sort(key=...)` is a
stable ascending sort by the key; any stable ascending sort by the key computes
the same list, so it is modelled by `List.insertionSort` with `≤` on the hue
component (Mathlib's insertion sort is stable in exactly this sense). -/
def order_by_hue (colors : List Q3) : List RGBi :=
  let hsvs := colors.map fun c =>
    rgb_to_hsv (down_scale c.1) (down_scale c.2.1) (down_scale c.2.2)
  let sorted := hsvs.insertionSort fun a b => a.1 ≤ b.1
  sorted.map fun t => up3 (hsv_to_rgb t.1 t.2.1 t.2.2)

/-- Function `brighten(color, brightness)` (lines 83-88). -/
def brighten (color : Q3) (brightness : ℚ) : RGBi :=
  let hsv := rgb_to_hsv (down_scale color.1) (down_scale color.2.1) (down_scale color.2.2)
  up3 (hsv_to_rgb hsv.1 hsv.2.1 (hsv.2.2 + down_scale brightness))

/-- PIL's `img.getcolors(w*h)` yields one `(count, color)` entry per distinct
pixel color; `get_colors` (lines 56-61) keeps only the colors.  The distinct
colors are listed in order of first appearance in the pixel list. -/
def distinctColorsAux (seen : List RGBi) : List RGBi → List RGBi
  | [] => []
  | c :: rest =>
    if c ∈ seen then distinctColorsAux seen rest
    else c :: distinctColorsAux (c :: seen) rest

/-- Function `get_colors(img)` (lines 56-61): the list of the image's distinct colors,
one entry per distinct color (PIL `getcolors` counts are discarded by the
list comprehension `[color[:3] for count, color in ...]`). -/
def get_colors (pixels : List RGBi) : List RGBi := distinctColorsAux [] pixels

/-- Function `colorz(fd, n, min_v, max_v, bold_add, order_colors)` (lines 91-113).
Image decoding and thumbnailing (`Image.open`, `img.thumbnail`) are external
collaborators per spec section 1; they are represented by the decoded pixel
list.  `scipy.cluster.vq.kmeans` is the external Quantization Engine; it is
represented by the `km` parameter (observations and cluster count in, centroid
list out), constrained in theorems by the contract of spec section 4.3.
Python is untyped: the integer tuples `order_by_hue` returns flow on as
numbers, which the embedding writes as the cast `toQ3`. -/
def colorz (pixels : List RGBi) (km : List Q3 → ℕ → List Q3) (n : ℕ)
    (min_v max_v bold_add : ℚ) (order_colors : Bool) : List (Q3 × RGBi) :=
  let obs := get_colors pixels
  let clamped := obs.map fun c => clamp (toQ3 c) min_v max_v
  let clusters := km (clamped.map toQ3) n
  let colors := if order_colors then (order_by_hue clusters).map toQ3 else clusters
  colors.zip (colors.map fun c => brighten c bold_add)

/-- Modelled from the spec: `scipy.cluster.vq.kmeans` is not part of src/.
Spec section 4.3 specifies each centroid as the mean of its assigned samples;
for a single cluster every sample is assigned to the one centroid, so the
engine returns the componentwise mean of all observations. -/
def kmeansMeanOne (obs : List Q3) (_n : ℕ) : List Q3 :=
  [((obs.map fun c => c.1).sum / (obs.length : ℚ),
    (obs.map fun c => c.2.1).sum / (obs.length : ℚ),
    (obs.map fun c => c.2.2).sum / (obs.length : ℚ))]

/-- HSV hue component of a color, as `order_by_hue` computes it. -/
def hueOf (c : Q3) : ℚ :=
  (rgb_to_hsv (down_scale c.1) (down_scale c.2.1) (down_scale c.2.2)).1

/-- HSV saturation component of a color, as the pipeline computes it. -/
def satOf (c : Q3) : ℚ :=
  (rgb_to_hsv (down_scale c.1) (down_scale c.2.1) (down_scale c.2.2)).2.1

/-- Hue comparison on colors (the sort key of `order_by_hue`). -/
def hueLE (a b : Q3) : Prop := hueOf a ≤ hueOf b

instance : DecidableRel hueLE := fun a b => inferInstanceAs (Decidable (hueOf a ≤ hueOf b))

instance : IsTotal Q3 hueLE := ⟨fun _ _ => le_total _ _⟩

instance : IsTrans Q3 hueLE := ⟨fun _ _ _ => le_trans⟩

/-- Hue comparison on integer colors. -/
def hueLEi (a b : RGBi) : Prop := hueOf (toQ3 a) ≤ hueOf (toQ3 b)

instance : DecidableRel hueLEi := fun a b =>
  inferInstanceAs (Decidable (hueOf (toQ3 a) ≤ hueOf (toQ3 b)))

instance : IsTotal RGBi hueLEi := ⟨fun _ _ => le_total _ _⟩

instance : IsTrans RGBi hueLEi := ⟨fun _ _ _ => le_trans⟩

/-- The value channel of an integer RGB color on the 0-255 scale: its maximum
component (`v = max(r, g, b)` after the 256 rescale). -/
def max3 (c : RGBi) : ℤ := max c.1 (max c.2.1 c.2.2)

/-- The value channel of a rational color triple: its maximum component. -/
def max3q (c : Q3) : ℚ := max c.1 (max c.2.1 c.2.2)

/-! ### Basic facts about the Python numeric primitives -/

theorem pyInt_intCast (n : ℤ) : pyInt (n : ℚ) = n := by
  unfold pyInt
  rcases le_or_lt 0 (n : ℚ) with h | h
  · rw [if_pos h, Int.floor_intCast]
  · rw [if_neg (not_le.mpr h), Int.ceil_intCast]

theorem pyInt_eq_floor {q : ℚ} (h : 0 ≤ q) : pyInt q = ⌊q⌋ := if_pos h

theorem pyInt_mono : Monotone pyInt := by
  intro a b hab
  unfold pyInt
  rcases le_or_lt 0 a with ha | ha
  · rw [if_pos ha, if_pos (ha.trans hab)]
    exact Int.floor_le_floor hab
  · rcases le_or_lt 0 b with hb | hb
    · rw [if_neg (not_le.mpr ha), if_pos hb]
      calc ⌈a⌉ ≤ ⌈(0 : ℚ)⌉ := Int.ceil_le_ceil ha.le
      _ = 0 := by simp
      _ ≤ ⌊b⌋ := Int.floor_nonneg.mpr hb
    · rw [if_neg (not_le.mpr ha), if_neg (not_le.mpr hb)]
      exact Int.ceil_le_ceil hab

theorem intCast_le_pyInt {n : ℤ} {q : ℚ} (h : (n : ℚ) ≤ q) : n ≤ pyInt q := by
  have := pyInt_mono h
  rwa [pyInt_intCast] at this

theorem pyInt_le_intCast {n : ℤ} {q : ℚ} (h : q ≤ (n : ℚ)) : pyInt q ≤ n := by
  have := pyInt_mono h
  rwa [pyInt_intCast] at this

theorem pyInt_nonneg {q : ℚ} (h : 0 ≤ q) : 0 ≤ pyInt q :=
  intCast_le_pyInt (by exact_mod_cast h)

theorem pyInt_max (a b : ℚ) : pyInt (max a b) = max (pyInt a) (pyInt b) := by
  rcases le_total a b with h | h
  · rw [max_eq_right h, max_eq_right (pyInt_mono h)]
  · rw [max_eq_left h, max_eq_left (pyInt_mono h)]

theorem pyMod_one (q : ℚ) : pyMod q 1 = q - ⌊q⌋ := by
  unfold pyMod
  rw [div_one, one_mul]

theorem pyMod_one_nonneg (q : ℚ) : 0 ≤ pyMod q 1 := by
  rw [pyMod_one]
  exact sub_nonneg.mpr (Int.floor_le q)

theorem pyMod_one_lt_one (q : ℚ) : pyMod q 1 < 1 := by
  rw [pyMod_one]
  have := Int.lt_floor_add_one q
  linarith

theorem up_down (k : ℤ) : up_scale (down_scale (k : ℚ)) = k := by
  unfold up_scale down_scale SCALE
  rw [div_mul_cancel₀ _ (by norm_num : (256 : ℚ) ≠ 0), pyInt_intCast]

theorem up3_down3 (c : RGBi) :
    up3 (down_scale (c.1 : ℚ), down_scale (c.2.1 : ℚ), down_scale (c.2.2 : ℚ)) = c := by
  unfold up3
  simp only [up_down]

/-! ### Branch computations for `hsv_to_rgb` -/

theorem pyInt_window {q : ℚ} {w : ℤ} (h0 : 0 ≤ w) (hlo : (w : ℚ) ≤ q) (hhi : q < w + 1) :
    pyInt q = w := by
  have hq : 0 ≤ q := le_trans (by exact_mod_cast h0) hlo
  rw [pyInt_eq_floor hq]
  exact Int.floor_eq_iff.mpr ⟨hlo, by exact_mod_cast hhi⟩

theorem hsv_to_rgb_case0 {h s v : ℚ} (hs : s ≠ 0) (h0 : 0 ≤ h * 6) (h1 : h * 6 < 1) :
    hsv_to_rgb h s v = (v, v * (1 - s * (1 - (h * 6 - 0))), v * (1 - s)) := by
  have hw : pyInt (h * 6) = 0 := pyInt_window le_rfl (by exact_mod_cast h0) (by push_cast; linarith)
  simp only [hsv_to_rgb, hw, if_neg hs]
  norm_num

theorem hsv_to_rgb_case1 {h s v : ℚ} (hs : s ≠ 0) (h0 : 1 ≤ h * 6) (h1 : h * 6 < 2) :
    hsv_to_rgb h s v = (v * (1 - s * (h * 6 - 1)), v, v * (1 - s)) := by
  have hw : pyInt (h * 6) = 1 :=
    pyInt_window (by norm_num) (by exact_mod_cast h0) (by push_cast; linarith)
  simp only [hsv_to_rgb, hw, if_neg hs]
  norm_num

theorem hsv_to_rgb_case2 {h s v : ℚ} (hs : s ≠ 0) (h0 : 2 ≤ h * 6) (h1 : h * 6 < 3) :
    hsv_to_rgb h s v = (v * (1 - s), v, v * (1 - s * (1 - (h * 6 - 2)))) := by
  have hw : pyInt (h * 6) = 2 :=
    pyInt_window (by norm_num) (by exact_mod_cast h0) (by push_cast; linarith)
  simp only [hsv_to_rgb, hw, if_neg hs]
  norm_num

theorem hsv_to_rgb_case3 {h s v : ℚ} (hs : s ≠ 0) (h0 : 3 ≤ h * 6) (h1 : h * 6 < 4) :
    hsv_to_rgb h s v = (v * (1 - s), v * (1 - s * (h * 6 - 3)), v) := by
  have hw : pyInt (h * 6) = 3 :=
    pyInt_window (by norm_num) (by exact_mod_cast h0) (by push_cast; linarith)
  simp only [hsv_to_rgb, hw, if_neg hs]
  norm_num

theorem hsv_to_rgb_case4 {h s v : ℚ} (hs : s ≠ 0) (h0 : 4 ≤ h * 6) (h1 : h * 6 < 5) :
    hsv_to_rgb h s v = (v * (1 - s * (1 - (h * 6 - 4))), v * (1 - s), v) := by
  have hw : pyInt (h * 6) = 4 :=
    pyInt_window (by norm_num) (by exact_mod_cast h0) (by push_cast; linarith)
  simp only [hsv_to_rgb, hw, if_neg hs]
  norm_num

theorem hsv_to_rgb_case5 {h s v : ℚ} (hs : s ≠ 0) (h0 : 5 ≤ h * 6) (h1 : h * 6 < 6) :
    hsv_to_rgb h s v = (v, v * (1 - s), v * (1 - s * (h * 6 - 5))) := by
  have hw : pyInt (h * 6) = 5 :=
    pyInt_window (by norm_num) (by exact_mod_cast h0) (by push_cast; linarith)
  simp only [hsv_to_rgb, hw, if_neg hs]
  norm_num

/-! ### Exact round trip `rgb_to_hsv` then `hsv_to_rgb` over the rationals -/

theorem hsv_of_rgb_roundtrip (r g b : ℚ) (hr : 0 ≤ r) (hg : 0 ≤ g) (hb : 0 ≤ b) :
    hsv_to_rgb (rgb_to_hsv r g b).1 (rgb_to_hsv r g b).2.1 (rgb_to_hsv r g b).2.2 =
      (r, g, b) := by
  have hnr : min r (min g b) ≤ r := min_le_left _ _
  have hng : min r (min g b) ≤ g := le_trans (min_le_right _ _) (min_le_left _ _)
  have hnb : min r (min g b) ≤ b := le_trans (min_le_right _ _) (min_le_right _ _)
  have hrm : r ≤ max r (max g b) := le_max_left _ _
  have hgm : g ≤ max r (max g b) := le_trans (le_max_left _ _) (le_max_right _ _)
  have hbm : b ≤ max r (max g b) := le_trans (le_max_right _ _) (le_max_right _ _)
  have hn0 : 0 ≤ min r (min g b) := le_min hr (le_min hg hb)
  by_cases heq : min r (min g b) = max r (max g b)
  · have hrv : r = max r (max g b) := le_antisymm hrm (heq ▸ hnr)
    have hgv : g = max r (max g b) := le_antisymm hgm (heq ▸ hng)
    have hbv : b = max r (max g b) := le_antisymm hbm (heq ▸ hnb)
    simp only [rgb_to_hsv, if_pos heq, hsv_to_rgb, if_pos rfl]
    rw [Prod.mk.injEq, Prod.mk.injEq]
    exact ⟨hrv.symm, hgv.symm, hbv.symm⟩
  · have hlt : min r (min g b) < max r (max g b) :=
      lt_of_le_of_ne (le_trans hnr hrm) heq
    have hm0 : 0 < max r (max g b) := lt_of_le_of_lt hn0 hlt
    have hR : 0 < max r (max g b) - min r (min g b) := sub_pos.mpr hlt
    have hsne : (max r (max g b) - min r (min g b)) / max r (max g b) ≠ 0 :=
      ne_of_gt (div_pos hR hm0)
    set M := max r (max g b) with hM
    set N := min r (min g b) with hN
    have hMne : M ≠ 0 := hm0.ne'
    have hRne : M - N ≠ 0 := hR.ne'
    simp only [rgb_to_hsv]
    rw [← hM, ← hN, if_neg heq]
    dsimp only
    by_cases hrx : r = M
    · rw [if_pos hrx]
      rcases lt_or_le (g - b) 0 with hd | hd
      · -- g < b, the minimum is g: wheel position in [5, 6)
        have hbr : b ≤ r := by linarith
        have hNg : N = g := by
          rw [hN, min_eq_left (by linarith : g ≤ b), min_eq_right (by linarith : g ≤ r)]
        have hh0 : (M - b) / (M - N) - (M - g) / (M - N) = (g - b) / (M - N) := by ring
        have hw1 : -1 ≤ (M - b) / (M - N) - (M - g) / (M - N) := by
          rw [hh0]
          rw [neg_le, ← neg_div]
          apply div_le_one hR |>.mpr
          linarith
        have hw2 : (M - b) / (M - N) - (M - g) / (M - N) < 0 := by
          rw [hh0]
          exact div_neg_of_neg_of_pos hd hR
        have hfl : ⌊(((M - b) / (M - N) - (M - g) / (M - N)) / 6 : ℚ)⌋ = -1 := by
          rw [Int.floor_eq_iff]
          constructor
          · push_cast; linarith
          · push_cast; linarith
        have hpm : pyMod (((M - b) / (M - N) - (M - g) / (M - N)) / 6) 1 =
            ((M - b) / (M - N) - (M - g) / (M - N)) / 6 + 1 := by
          rw [pyMod_one, hfl]; push_cast; ring
        rw [hpm, hsv_to_rgb_case5 hsne (by linarith) (by linarith)]
        rw [Prod.mk.injEq, Prod.mk.injEq]
        refine ⟨hrx.symm, ?_, ?_⟩
        · rw [← hNg]; field_simp
        · rw [← hNg]
          field_simp
          ring
      · rcases eq_or_lt_of_le (show g - b ≤ M - N by
          have : N ≤ b := hnb
          linarith) with hdR | hdR
        · -- g - b = M - N forces g = M and b = N: wheel position 1, f = 0
          have hgM : g = M := by linarith
          have hbN : b = N := by linarith
          have hh0 : (M - b) / (M - N) - (M - g) / (M - N) = 1 := by
            rw [hbN, hgM]
            field_simp
          have hfl : ⌊((1 : ℚ) / 6 : ℚ)⌋ = 0 := by
            rw [Int.floor_eq_zero_iff]
            constructor <;> norm_num
          have hpm : pyMod (((M - b) / (M - N) - (M - g) / (M - N)) / 6) 1 = 1 / 6 := by
            rw [hh0, pyMod_one, hfl]
            norm_num
          rw [hpm, hsv_to_rgb_case1 hsne (by norm_num) (by norm_num)]
          rw [Prod.mk.injEq, Prod.mk.injEq]
          refine ⟨?_, hgM.symm, ?_⟩
          · rw [hrx]; ring_nf
          · rw [hbN]; field_simp
        · -- 0 ≤ g - b < M - N: the minimum is b, wheel position in [0, 1)
          have hbg : b ≤ g := by linarith
          have hbr : b ≤ r := by linarith
          have hNb : N = b := by
            rw [hN, min_eq_right hbg, min_eq_right hbr]
          have hh0 : (M - b) / (M - N) - (M - g) / (M - N) = (g - b) / (M - N) := by ring
          have hw1 : 0 ≤ (M - b) / (M - N) - (M - g) / (M - N) := by
            rw [hh0]
            exact div_nonneg hd hR.le
          have hw2 : (M - b) / (M - N) - (M - g) / (M - N) < 1 := by
            rw [hh0]
            exact (div_lt_one hR).mpr hdR
          have hfl : ⌊(((M - b) / (M - N) - (M - g) / (M - N)) / 6 : ℚ)⌋ = 0 := by
            rw [Int.floor_eq_zero_iff]
            constructor
            · linarith
            · linarith
          have hpm : pyMod (((M - b) / (M - N) - (M - g) / (M - N)) / 6) 1 =
              ((M - b) / (M - N) - (M - g) / (M - N)) / 6 := by
            rw [pyMod_one, hfl]
            push_cast
            ring
          rw [hpm, hsv_to_rgb_case0 hsne (by linarith) (by linarith)]
          rw [Prod.mk.injEq, Prod.mk.injEq]
          refine ⟨hrx.symm, ?_, ?_⟩
          · rw [← hNb]
            field_simp
            ring
          · rw [← hNb]
            field_simp
    · rw [if_neg hrx]
      have hrM : r < M := lt_of_le_of_ne hrm hrx
      by_cases hgx : g = M
      · rw [if_pos hgx]
        rcases lt_or_le (b - r) 0 with hd | hd
        · -- b < r, the minimum is b: wheel position in (1, 2)
          have hNb : N = b := by
            rw [hN, min_eq_right (by linarith [hgm] : b ≤ g), min_eq_right (by linarith : b ≤ r)]
          have hh0 : 2 + (M - r) / (M - N) - (M - b) / (M - N) = 2 + (b - r) / (M - N) := by
            ring
          have hw1 : 1 < 2 + (M - r) / (M - N) - (M - b) / (M - N) := by
            rw [hh0]
            have : -1 < (b - r) / (M - N) := by
              rw [lt_div_iff₀ hR]
              have : N ≤ b := hnb
              linarith
            linarith
          have hw2 : 2 + (M - r) / (M - N) - (M - b) / (M - N) < 2 := by
            rw [hh0]
            have : (b - r) / (M - N) < 0 := div_neg_of_neg_of_pos hd hR
            linarith
          have hfl : ⌊((2 + (M - r) / (M - N) - (M - b) / (M - N)) / 6 : ℚ)⌋ = 0 := by
            rw [Int.floor_eq_zero_iff]
            constructor
            · linarith
            · linarith
          have hpm : pyMod ((2 + (M - r) / (M - N) - (M - b) / (M - N)) / 6) 1 =
              (2 + (M - r) / (M - N) - (M - b) / (M - N)) / 6 := by
            rw [pyMod_one, hfl]
            push_cast
            ring
          rw [hpm, hsv_to_rgb_case1 hsne (by linarith) (by linarith)]
          rw [Prod.mk.injEq, Prod.mk.injEq]
          refine ⟨?_, hgx.symm, ?_⟩
          · rw [← hNb]
            field_simp
            ring
          · rw [← hNb]
            field_simp
        · rcases eq_or_lt_of_le (show b - r ≤ M - N by
            have : N ≤ r := hnr
            linarith [hbm]) with hdR | hdR
          · -- b - r = M - N forces b = M and r = N: wheel position 3, f = 0
            have hbM : b = M := by linarith [hbm, hnr]
            have hrN : r = N := by linarith [hbm, hnr]
            have hh0 : 2 + (M - r) / (M - N) - (M - b) / (M - N) = 3 := by
              rw [hbM, hrN]
              field_simp
              norm_num
            have hfl : ⌊((3 : ℚ) / 6 : ℚ)⌋ = 0 := by
              rw [Int.floor_eq_zero_iff]
              constructor <;> norm_num
            have hpm : pyMod ((2 + (M - r) / (M - N) - (M - b) / (M - N)) / 6) 1 = 3 / 6 := by
              rw [hh0, pyMod_one, hfl]
              norm_num
            rw [hpm, hsv_to_rgb_case3 hsne (by norm_num) (by norm_num)]
            rw [Prod.mk.injEq, Prod.mk.injEq]
            refine ⟨?_, ?_, hbM.symm⟩
            · rw [hrN]; field_simp
            · rw [hgx]; ring_nf
          · -- r ≤ b < M: the minimum is r, wheel position in [2, 3)
            have hNr : N = r := by
              rw [hN, min_eq_left (le_min (by linarith [hgm] : r ≤ g) (by linarith : r ≤ b))]
            have hh0 : 2 + (M - r) / (M - N) - (M - b) / (M - N) = 2 + (b - r) / (M - N) := by
              ring
            have hw1 : 2 ≤ 2 + (M - r) / (M - N) - (M - b) / (M - N) := by
              rw [hh0]
              have : 0 ≤ (b - r) / (M - N) := div_nonneg hd hR.le
              linarith
            have hw2 : 2 + (M - r) / (M - N) - (M - b) / (M - N) < 3 := by
              rw [hh0]
              have : (b - r) / (M - N) < 1 := (div_lt_one hR).mpr hdR
              linarith
            have hfl : ⌊((2 + (M - r) / (M - N) - (M - b) / (M - N)) / 6 : ℚ)⌋ = 0 := by
              rw [Int.floor_eq_zero_iff]
              constructor
              · linarith
              · linarith
            have hpm : pyMod ((2 + (M - r) / (M - N) - (M - b) / (M - N)) / 6) 1 =
                (2 + (M - r) / (M - N) - (M - b) / (M - N)) / 6 := by
              rw [pyMod_one, hfl]
              push_cast
              ring
            rw [hpm, hsv_to_rgb_case2 hsne (by linarith) (by linarith)]
            rw [Prod.mk.injEq, Prod.mk.injEq]
            refine ⟨?_, hgx.symm, ?_⟩
            · rw [← hNr]
              field_simp
            · rw [← hNr]
              field_simp
              ring
      · rw [if_neg hgx]
        have hgM : g < M := lt_of_le_of_ne hgm hgx
        have hbM : b = M := by
          have h1 := max_choice r (max g b)
          have h2 := max_choice g b
          rw [← hM] at h1
          rcases h1 with h1 | h1
          · exact absurd h1.symm hrx
          · rcases h2 with h2 | h2
            · rw [h2] at h1
              exact absurd h1.symm hgx
            · rw [h2] at h1
              exact h1.symm
        rcases lt_or_le (r - g) 0 with hd | hd
        · -- r < g, the minimum is r: wheel position in (3, 4)
          have hNr : N = r := by
            rw [hN, min_eq_left (le_min (by linarith : r ≤ g) (by linarith : r ≤ b))]
          have hh0 : 4 + (M - g) / (M - N) - (M - r) / (M - N) = 4 + (r - g) / (M - N) := by
            ring
          have hw1 : 3 < 4 + (M - g) / (M - N) - (M - r) / (M - N) := by
            rw [hh0]
            have : -1 < (r - g) / (M - N) := by
              rw [lt_div_iff₀ hR]
              have : N ≤ r := hnr
              linarith
            linarith
          have hw2 : 4 + (M - g) / (M - N) - (M - r) / (M - N) < 4 := by
            rw [hh0]
            have : (r - g) / (M - N) < 0 := div_neg_of_neg_of_pos hd hR
            linarith
          have hfl : ⌊((4 + (M - g) / (M - N) - (M - r) / (M - N)) / 6 : ℚ)⌋ = 0 := by
            rw [Int.floor_eq_zero_iff]
            constructor
            · linarith
            · linarith
          have hpm : pyMod ((4 + (M - g) / (M - N) - (M - r) / (M - N)) / 6) 1 =
              (4 + (M - g) / (M - N) - (M - r) / (M - N)) / 6 := by
            rw [pyMod_one, hfl]
            push_cast
            ring
          rw [hpm, hsv_to_rgb_case3 hsne (by linarith) (by linarith)]
          rw [Prod.mk.injEq, Prod.mk.injEq]
          refine ⟨?_, ?_, hbM.symm⟩
          · rw [← hNr]
            field_simp
          · rw [← hNr]
            field_simp
            ring
        · -- g ≤ r < M: the minimum is g, wheel position in [4, 5)
          have hNg : N = g := by
            rw [hN, min_eq_left (by linarith : g ≤ b), min_eq_right (by linarith : g ≤ r)]
          have hh0 : 4 + (M - g) / (M - N) - (M - r) / (M - N) = 4 + (r - g) / (M - N) := by
            ring
          have hw1 : 4 ≤ 4 + (M - g) / (M - N) - (M - r) / (M - N) := by
            rw [hh0]
            have : 0 ≤ (r - g) / (M - N) := div_nonneg hd hR.le
            linarith
          have hw2 : 4 + (M - g) / (M - N) - (M - r) / (M - N) < 5 := by
            rw [hh0]
            have : (r - g) / (M - N) < 1 := by
              apply (div_lt_one hR).mpr
              have : N ≤ g := hng
              linarith
            linarith
          have hfl : ⌊((4 + (M - g) / (M - N) - (M - r) / (M - N)) / 6 : ℚ)⌋ = 0 := by
            rw [Int.floor_eq_zero_iff]
            constructor
            · linarith
            · linarith
          have hpm : pyMod ((4 + (M - g) / (M - N) - (M - r) / (M - N)) / 6) 1 =
              (4 + (M - g) / (M - N) - (M - r) / (M - N)) / 6 := by
            rw [pyMod_one, hfl]
            push_cast
            ring
          rw [hpm, hsv_to_rgb_case4 hsne (by linarith) (by linarith)]
          rw [Prod.mk.injEq, Prod.mk.injEq]
          refine ⟨?_, ?_, hbM.symm⟩
          · rw [← hNg]
            field_simp
            ring
          · rw [← hNg]
            field_simp

/-! ### Range of `hsv_to_rgb`: every component lies in `[0, v]` and `v` is the maximum -/

theorem hsv_to_rgb_bounds (h s v : ℚ) (hh : 0 ≤ h) (hs0 : 0 ≤ s) (hs1 : s ≤ 1)
    (hv : 0 ≤ v) :
    (0 ≤ (hsv_to_rgb h s v).1 ∧ (hsv_to_rgb h s v).1 ≤ v) ∧
    (0 ≤ (hsv_to_rgb h s v).2.1 ∧ (hsv_to_rgb h s v).2.1 ≤ v) ∧
    (0 ≤ (hsv_to_rgb h s v).2.2 ∧ (hsv_to_rgb h s v).2.2 ≤ v) ∧
    max3q (hsv_to_rgb h s v) = v := by
  by_cases hs : s = 0
  · simp only [hsv_to_rgb, if_pos hs, max3q, max_self]
    exact ⟨⟨hv, le_rfl⟩, ⟨hv, le_rfl⟩, ⟨hv, le_rfl⟩, trivial⟩
  · have h6 : (0 : ℚ) ≤ h * 6 := mul_nonneg hh (by norm_num)
    simp only [hsv_to_rgb, if_neg hs, pyInt_eq_floor h6]
    have hf0 : 0 ≤ h * 6 - (⌊h * 6⌋ : ℚ) := sub_nonneg.mpr (Int.floor_le _)
    have hf1 : h * 6 - (⌊h * 6⌋ : ℚ) ≤ 1 := by
      have := Int.lt_floor_add_one (h * 6)
      linarith
    have hp : 0 ≤ v * (1 - s) ∧ v * (1 - s) ≤ v :=
      ⟨mul_nonneg hv (by linarith), by nlinarith [mul_nonneg hv hs0]⟩
    have hsf : 0 ≤ s * (h * 6 - (⌊h * 6⌋ : ℚ)) := mul_nonneg hs0 hf0
    have hsf1 : s * (h * 6 - (⌊h * 6⌋ : ℚ)) ≤ 1 := by nlinarith
    have hq : 0 ≤ v * (1 - s * (h * 6 - (⌊h * 6⌋ : ℚ))) ∧
        v * (1 - s * (h * 6 - (⌊h * 6⌋ : ℚ))) ≤ v :=
      ⟨mul_nonneg hv (by linarith), by nlinarith⟩
    have hsg : 0 ≤ s * (1 - (h * 6 - (⌊h * 6⌋ : ℚ))) := mul_nonneg hs0 (by linarith)
    have hsg1 : s * (1 - (h * 6 - (⌊h * 6⌋ : ℚ))) ≤ 1 := by nlinarith
    have ht : 0 ≤ v * (1 - s * (1 - (h * 6 - (⌊h * 6⌋ : ℚ)))) ∧
        v * (1 - s * (1 - (h * 6 - (⌊h * 6⌋ : ℚ)))) ≤ v :=
      ⟨mul_nonneg hv (by linarith), by nlinarith⟩
    by_cases h0 : Int.emod ⌊h * 6⌋ 6 = 0
    · rw [if_pos h0]
      exact ⟨⟨hv, le_rfl⟩, ht, hp, by
        simp only [max3q]
        rw [max_eq_left (max_le ht.2 hp.2)]⟩
    · rw [if_neg h0]
      by_cases h1 : Int.emod ⌊h * 6⌋ 6 = 1
      · rw [if_pos h1]
        exact ⟨hq, ⟨hv, le_rfl⟩, hp, by
          simp only [max3q]
          rw [max_eq_left hp.2, max_eq_right hq.2]⟩
      · rw [if_neg h1]
        by_cases h2 : Int.emod ⌊h * 6⌋ 6 = 2
        · rw [if_pos h2]
          exact ⟨hp, ⟨hv, le_rfl⟩, ht, by
            simp only [max3q]
            rw [max_eq_left ht.2, max_eq_right hp.2]⟩
        · rw [if_neg h2]
          by_cases h3 : Int.emod ⌊h * 6⌋ 6 = 3
          · rw [if_pos h3]
            exact ⟨hp, hq, ⟨hv, le_rfl⟩, by
              simp only [max3q]
              rw [max_eq_right hq.2, max_eq_right hp.2]⟩
          · rw [if_neg h3]
            by_cases h4 : Int.emod ⌊h * 6⌋ 6 = 4
            · rw [if_pos h4]
              exact ⟨ht, hp, ⟨hv, le_rfl⟩, by
                simp only [max3q]
                rw [max_eq_right hp.2, max_eq_right ht.2]⟩
            · rw [if_neg h4]
              exact ⟨⟨hv, le_rfl⟩, hp, hq, by
                simp only [max3q]
                rw [max_eq_left (max_le hp.2 hq.2)]⟩

/-! ### Range of `rgb_to_hsv` on nonnegative inputs -/

theorem rgb_to_hsv_props (r g b : ℚ) (hr : 0 ≤ r) (hg : 0 ≤ g) (hb : 0 ≤ b) :
    0 ≤ (rgb_to_hsv r g b).1 ∧
    0 ≤ (rgb_to_hsv r g b).2.1 ∧ (rgb_to_hsv r g b).2.1 ≤ 1 ∧
    (rgb_to_hsv r g b).2.2 = max r (max g b) := by
  have hn0 : 0 ≤ min r (min g b) := le_min hr (le_min hg hb)
  by_cases heq : min r (min g b) = max r (max g b)
  · simp only [rgb_to_hsv, if_pos heq]
    norm_num
  · have hlt : min r (min g b) < max r (max g b) :=
      lt_of_le_of_ne (le_trans (min_le_left _ _) (le_max_left _ _)) heq
    have hm0 : 0 < max r (max g b) := lt_of_le_of_lt hn0 hlt
    simp only [rgb_to_hsv, if_neg heq]
    refine ⟨pyMod_one_nonneg _, ?_, ?_, trivial⟩
    · exact div_nonneg (by linarith) hm0.le
    · rw [div_le_one hm0]
      linarith

/-! ### The value channel of `clamp` output -/

theorem up_scale_max (a b : ℚ) : up_scale (max a b) = max (up_scale a) (up_scale b) := by
  unfold up_scale
  rw [← pyInt_max]
  congr 1
  rw [max_mul_of_nonneg _ _ (by norm_num [SCALE] : (0 : ℚ) ≤ SCALE)]

theorem max3_up3 (c : Q3) : max3 (up3 c) = up_scale (max3q c) := by
  unfold max3 up3 max3q
  rw [up_scale_max, up_scale_max]

theorem down_scale_nonneg {x : ℚ} (h : 0 ≤ x) : 0 ≤ down_scale x := by
  unfold down_scale SCALE
  positivity

theorem value_of_down (d : RGBi) (h1 : 0 ≤ d.1) (h2 : 0 ≤ d.2.1) (h3 : 0 ≤ d.2.2) :
    (rgb_to_hsv (down_scale ((d.1 : ℚ))) (down_scale ((d.2.1 : ℚ)))
      (down_scale ((d.2.2 : ℚ)))).2.2 = down_scale ((max3 d : ℚ)) := by
  have hp := rgb_to_hsv_props (down_scale ((d.1 : ℚ))) (down_scale ((d.2.1 : ℚ)))
    (down_scale ((d.2.2 : ℚ)))
    (down_scale_nonneg (by exact_mod_cast h1))
    (down_scale_nonneg (by exact_mod_cast h2))
    (down_scale_nonneg (by exact_mod_cast h3))
  rw [hp.2.2.2]
  unfold down_scale SCALE max3
  rw [max_div_div_right (by norm_num : (0 : ℚ) ≤ 256),
    max_div_div_right (by norm_num : (0 : ℚ) ≤ 256)]
  push_cast
  ring

/-- A nonnegative integer color is reproduced exactly by the
down-scale, `rgb_to_hsv`, `hsv_to_rgb`, up-scale pipeline. -/
theorem roundtrip_int (d : RGBi) (h1 : 0 ≤ d.1) (h2 : 0 ≤ d.2.1) (h3 : 0 ≤ d.2.2) :
    up3 (hsv_to_rgb
      (rgb_to_hsv (down_scale ((d.1 : ℚ))) (down_scale ((d.2.1 : ℚ)))
        (down_scale ((d.2.2 : ℚ)))).1
      (rgb_to_hsv (down_scale ((d.1 : ℚ))) (down_scale ((d.2.1 : ℚ)))
        (down_scale ((d.2.2 : ℚ)))).2.1
      (rgb_to_hsv (down_scale ((d.1 : ℚ))) (down_scale ((d.2.1 : ℚ)))
        (down_scale ((d.2.2 : ℚ)))).2.2) = d := by
  rw [hsv_of_rgb_roundtrip _ _ _
    (down_scale_nonneg (by exact_mod_cast h1))
    (down_scale_nonneg (by exact_mod_cast h2))
    (down_scale_nonneg (by exact_mod_cast h3))]
  exact up3_down3 d

/-- A color whose value channel already lies inside the band is a fixed point
of `clamp`. -/
theorem clamp_fixed (d : RGBi) (mn mx : ℚ)
    (h1 : 0 ≤ d.1) (h2 : 0 ≤ d.2.1) (h3 : 0 ≤ d.2.2)
    (hlow : down_scale mn ≤ (rgb_to_hsv (down_scale ((d.1 : ℚ)))
      (down_scale ((d.2.1 : ℚ))) (down_scale ((d.2.2 : ℚ)))).2.2)
    (hhigh : (rgb_to_hsv (down_scale ((d.1 : ℚ))) (down_scale ((d.2.1 : ℚ)))
      (down_scale ((d.2.2 : ℚ)))).2.2 ≤ down_scale mx) :
    clamp (toQ3 d) mn mx = d := by
  unfold clamp toQ3
  dsimp only
  rw [max_eq_right hlow, min_eq_left hhigh]
  exact roundtrip_int d h1 h2 h3

/-- The clamped value channel: `clamp` sends the value channel to
`min (max min_v v) max_v` on the 0-255 integer scale, and keeps every
component nonnegative. -/
theorem clamp_max3 (c : Q3) (mn mx : ℚ)
    (hc1 : 0 ≤ c.1) (hc2 : 0 ≤ c.2.1) (hc3 : 0 ≤ c.2.2) (hmn : 0 ≤ mn) (hmx : 0 ≤ mx) :
    max3 (clamp c mn mx) =
      up_scale (min (max (down_scale mn)
        (rgb_to_hsv (down_scale c.1) (down_scale c.2.1) (down_scale c.2.2)).2.2)
        (down_scale mx)) ∧
    0 ≤ (clamp c mn mx).1 ∧ 0 ≤ (clamp c mn mx).2.1 ∧ 0 ≤ (clamp c mn mx).2.2 := by
  have hp := rgb_to_hsv_props (down_scale c.1) (down_scale c.2.1) (down_scale c.2.2)
    (down_scale_nonneg hc1) (down_scale_nonneg hc2) (down_scale_nonneg hc3)
  have hv0 : 0 ≤ min (max (down_scale mn)
      (rgb_to_hsv (down_scale c.1) (down_scale c.2.1) (down_scale c.2.2)).2.2)
      (down_scale mx) :=
    le_min (le_trans (down_scale_nonneg hmn) (le_max_left _ _)) (down_scale_nonneg hmx)
  have hb := hsv_to_rgb_bounds
    (rgb_to_hsv (down_scale c.1) (down_scale c.2.1) (down_scale c.2.2)).1
    (rgb_to_hsv (down_scale c.1) (down_scale c.2.1) (down_scale c.2.2)).2.1
    (min (max (down_scale mn)
      (rgb_to_hsv (down_scale c.1) (down_scale c.2.1) (down_scale c.2.2)).2.2)
      (down_scale mx))
    hp.1 hp.2.1 hp.2.2.1 hv0
  have hS : (0 : ℚ) ≤ SCALE := by norm_num [SCALE]
  unfold clamp
  dsimp only
  refine ⟨?_, ?_, ?_, ?_⟩
  · rw [max3_up3, hb.2.2.2]
  · exact pyInt_nonneg (mul_nonneg hb.1.1 hS)
  · exact pyInt_nonneg (mul_nonneg hb.2.1.1 hS)
  · exact pyInt_nonneg (mul_nonneg hb.2.2.1.1 hS)

theorem down_scale_mono {x y : ℚ} (h : x ≤ y) : down_scale x ≤ down_scale y := by
  unfold down_scale SCALE
  linarith

theorem down_scale_mul_SCALE (x : ℚ) : down_scale x * SCALE = x := by
  unfold down_scale SCALE
  ring

/-- With an integer band `0 ≤ mn ≤ mx`, the value channel of the clamped color
is an integer in `[mn, mx]` and all components stay nonnegative. -/
theorem clamp_band_int (c : Q3) (mn mx : ℤ)
    (hc1 : 0 ≤ c.1) (hc2 : 0 ≤ c.2.1) (hc3 : 0 ≤ c.2.2)
    (hmn : 0 ≤ mn) (hmm : mn ≤ mx) :
    mn ≤ max3 (clamp c (mn : ℚ) (mx : ℚ)) ∧ max3 (clamp c (mn : ℚ) (mx : ℚ)) ≤ mx ∧
    0 ≤ (clamp c (mn : ℚ) (mx : ℚ)).1 ∧ 0 ≤ (clamp c (mn : ℚ) (mx : ℚ)).2.1 ∧
    0 ≤ (clamp c (mn : ℚ) (mx : ℚ)).2.2 := by
  have hmnq : (0 : ℚ) ≤ (mn : ℚ) := by exact_mod_cast hmn
  have hmxq : (0 : ℚ) ≤ (mx : ℚ) := by exact_mod_cast hmn.trans hmm
  have hmmq : (mn : ℚ) ≤ (mx : ℚ) := by exact_mod_cast hmm
  have hK := clamp_max3 c (mn : ℚ) (mx : ℚ) hc1 hc2 hc3 hmnq hmxq
  have hvlow : down_scale (mn : ℚ) ≤ min (max (down_scale (mn : ℚ))
      (rgb_to_hsv (down_scale c.1) (down_scale c.2.1) (down_scale c.2.2)).2.2)
      (down_scale (mx : ℚ)) :=
    le_min (le_max_left _ _) (down_scale_mono hmmq)
  have hvhigh : min (max (down_scale (mn : ℚ))
      (rgb_to_hsv (down_scale c.1) (down_scale c.2.1) (down_scale c.2.2)).2.2)
      (down_scale (mx : ℚ)) ≤ down_scale (mx : ℚ) := min_le_right _ _
  refine ⟨?_, ?_, hK.2.1, hK.2.2.1, hK.2.2.2⟩
  · rw [hK.1]
    apply intCast_le_pyInt
    have h1 := mul_le_mul_of_nonneg_right hvlow (by norm_num [SCALE] : (0 : ℚ) ≤ SCALE)
    rwa [down_scale_mul_SCALE] at h1
  · rw [hK.1]
    apply pyInt_le_intCast
    have h1 := mul_le_mul_of_nonneg_right hvhigh (by norm_num [SCALE] : (0 : ℚ) ≤ SCALE)
    rwa [down_scale_mul_SCALE] at h1

/-- Clamping twice with the same integer band is the same as clamping once. -/
theorem clamp_idem_int (c : RGBi) (mn mx : ℤ)
    (hc1 : 0 ≤ c.1) (hc2 : 0 ≤ c.2.1) (hc3 : 0 ≤ c.2.2)
    (hmn : 0 ≤ mn) (hmm : mn ≤ mx) :
    clamp (toQ3 (clamp (toQ3 c) (mn : ℚ) (mx : ℚ))) (mn : ℚ) (mx : ℚ) =
      clamp (toQ3 c) (mn : ℚ) (mx : ℚ) := by
  have hc1q : (0 : ℚ) ≤ (toQ3 c).1 := by
    show (0 : ℚ) ≤ ((c.1 : ℚ))
    exact_mod_cast hc1
  have hc2q : (0 : ℚ) ≤ (toQ3 c).2.1 := by
    show (0 : ℚ) ≤ ((c.2.1 : ℚ))
    exact_mod_cast hc2
  have hc3q : (0 : ℚ) ≤ (toQ3 c).2.2 := by
    show (0 : ℚ) ≤ ((c.2.2 : ℚ))
    exact_mod_cast hc3
  have hB := clamp_band_int (toQ3 c) mn mx hc1q hc2q hc3q hmn hmm
  apply clamp_fixed _ _ _ hB.2.2.1 hB.2.2.2.1 hB.2.2.2.2
  · rw [value_of_down _ hB.2.2.1 hB.2.2.2.1 hB.2.2.2.2]
    exact down_scale_mono (by exact_mod_cast hB.1)
  · rw [value_of_down _ hB.2.2.1 hB.2.2.2.1 hB.2.2.2.2]
    exact down_scale_mono (by exact_mod_cast hB.2.1)

/-! ### `order_by_hue` is the stable sort of the colors by hue -/


theorem order_by_hue_int (l : List RGBi)
    (hb : ∀ d ∈ l, 0 ≤ d.1 ∧ 0 ≤ d.2.1 ∧ 0 ≤ d.2.2) :
    order_by_hue (l.map toQ3) = l.insertionSort hueLEi := by
  unfold order_by_hue
  dsimp only
  rw [← List.map_insertionSort hueLE (fun a b => a.1 ≤ b.1)
    (fun c => rgb_to_hsv (down_scale c.1) (down_scale c.2.1) (down_scale c.2.2))
    (l.map toQ3) (fun a _ b _ => Iff.rfl)]
  rw [← List.map_insertionSort hueLEi hueLE toQ3 l (fun a _ b _ => Iff.rfl)]
  rw [List.map_map, List.map_map]
  have hid : ∀ d ∈ l.insertionSort hueLEi,
      (((fun t : Q3 => up3 (hsv_to_rgb t.1 t.2.1 t.2.2)) ∘
        fun c : Q3 => rgb_to_hsv (down_scale c.1) (down_scale c.2.1) (down_scale c.2.2)) ∘
        toQ3) d = id d := by
    intro d hd
    have hdl := (List.mem_insertionSort hueLEi).mp hd
    obtain ⟨h1, h2, h3⟩ := hb d hdl
    exact roundtrip_int d h1 h2 h3
  rw [List.map_congr_left hid, List.map_id]

/-! ### `get_colors` deduplicates: one sample per distinct color -/

theorem mem_distinctColorsAux (c : RGBi) : ∀ (l seen : List RGBi),
    (c ∈ distinctColorsAux seen l ↔ c ∈ l ∧ c ∉ seen)
  | [], seen => by simp [distinctColorsAux]
  | a :: rest, seen => by
    unfold distinctColorsAux
    by_cases ha : a ∈ seen
    · rw [if_pos ha, mem_distinctColorsAux c rest seen]
      simp only [List.mem_cons]
      constructor
      · rintro ⟨h1, h2⟩
        exact ⟨Or.inr h1, h2⟩
      · rintro ⟨h1 | h1, h2⟩
        · subst h1
          exact absurd ha h2
        · exact ⟨h1, h2⟩
    · rw [if_neg ha]
      simp only [List.mem_cons, mem_distinctColorsAux c rest (a :: seen)]
      constructor
      · rintro (h | ⟨h1, h2⟩)
        · subst h
          exact ⟨Or.inl rfl, ha⟩
        · push_neg at h2
          exact ⟨Or.inr h1, h2.2⟩
      · rintro ⟨h1 | h1, h2⟩
        · exact Or.inl h1
        · by_cases hca : c = a
          · exact Or.inl hca
          · refine Or.inr ⟨h1, ?_⟩
            push_neg
            exact ⟨hca, h2⟩

theorem nodup_distinctColorsAux : ∀ (l seen : List RGBi), (distinctColorsAux seen l).Nodup
  | [], _ => by simp [distinctColorsAux]
  | a :: rest, seen => by
    unfold distinctColorsAux
    by_cases ha : a ∈ seen
    · rw [if_pos ha]
      exact nodup_distinctColorsAux rest seen
    · rw [if_neg ha]
      rw [List.nodup_cons]
      refine ⟨?_, nodup_distinctColorsAux rest (a :: seen)⟩
      intro hmem
      rw [mem_distinctColorsAux] at hmem
      exact hmem.2 (List.mem_cons_self a seen)

theorem get_colors_nodup (pixels : List RGBi) : (get_colors pixels).Nodup :=
  nodup_distinctColorsAux pixels []

theorem mem_get_colors (pixels : List RGBi) (c : RGBi) :
    c ∈ get_colors pixels ↔ c ∈ pixels := by
  unfold get_colors
  rw [mem_distinctColorsAux]
  simp

/-! ### Lengths through the pipeline -/

theorem order_by_hue_length (colors : List Q3) :
    (order_by_hue colors).length = colors.length := by
  unfold order_by_hue
  dsimp only
  rw [List.length_map, List.length_insertionSort, List.length_map]

theorem colorz_length (pixels : List RGBi) (km : List Q3 → ℕ → List Q3) (n : ℕ)
    (mn mx ba : ℚ) (oc : Bool)
    (hkm : ∀ obs : List Q3, (km obs n).length = n) :
    (colorz pixels km n mn mx ba oc).length = n := by
  unfold colorz
  dsimp only
  rw [List.length_zip, List.length_map, min_self]
  cases oc
  · simp only [Bool.false_eq_true, if_false]
    exact hkm _
  · simp only [if_true]
    rw [List.length_map, order_by_hue_length]
    exact hkm _

/-! ### Integrality of the exposed colors on the ordered path -/

theorem colorz_ordered_base_int (pixels : List RGBi) (km : List Q3 → ℕ → List Q3)
    (n : ℕ) (mn mx ba : ℚ) :
    ∀ p ∈ colorz pixels km n mn mx ba true,
      p.1.1.den = 1 ∧ p.1.2.1.den = 1 ∧ p.1.2.2.den = 1 := by
  intro p hp
  unfold colorz at hp
  dsimp only at hp
  rw [if_pos rfl] at hp
  have h1 := (List.of_mem_zip hp).1
  rw [List.mem_map] at h1
  obtain ⟨d, _, hd⟩ := h1
  rw [← hd]
  refine ⟨?_, ?_, ?_⟩ <;> exact Rat.den_intCast _

/-! ### Inverted band: clamp silently returns a color with value `max_v` -/

theorem clamp_inverted_band (c : Q3) (mn mx : ℤ)
    (hc1 : 0 ≤ c.1) (hc2 : 0 ≤ c.2.1) (hc3 : 0 ≤ c.2.2)
    (hmx : 0 ≤ mx) (hmm : mx < mn) :
    max3 (clamp c (mn : ℚ) (mx : ℚ)) = mx := by
  have hmn : (0 : ℤ) ≤ mn := hmx.trans hmm.le
  have hK := clamp_max3 c (mn : ℚ) (mx : ℚ) hc1 hc2 hc3
    (by exact_mod_cast hmn) (by exact_mod_cast hmx)
  rw [hK.1]
  have hmin : min (max (down_scale ((mn : ℤ) : ℚ))
      (rgb_to_hsv (down_scale c.1) (down_scale c.2.1) (down_scale c.2.2)).2.2)
      (down_scale ((mx : ℤ) : ℚ)) = down_scale ((mx : ℤ) : ℚ) :=
    min_eq_right (le_trans (down_scale_mono (by exact_mod_cast hmm.le)) (le_max_left _ _))
  rw [hmin]
  exact up_down mx

/-! ### Sorting claims packaged for `order_by_hue` -/

theorem order_by_hue_spec (l : List RGBi)
    (hb : ∀ d ∈ l, 0 ≤ d.1 ∧ 0 ≤ d.2.1 ∧ 0 ≤ d.2.2) :
    order_by_hue (l.map toQ3) = l.insertionSort hueLEi ∧
    (order_by_hue (l.map toQ3)).Perm l ∧
    ((order_by_hue (l.map toQ3)).map fun d => hueOf (toQ3 d)).Pairwise (· ≤ ·) := by
  have h1 := order_by_hue_int l hb
  refine ⟨h1, ?_, ?_⟩
  · rw [h1]
    exact List.perm_insertionSort hueLEi l
  · rw [h1]
    exact (List.sorted_insertionSort hueLEi l).map _ (fun a b hab => hab)

/-! ### Exact reverse round trip: `hsv_to_rgb` then `rgb_to_hsv` -/

theorem rgb_of_hsv_roundtrip (h s v : ℚ) (hh0 : 0 ≤ h) (hh1 : h < 1)
    (hs0 : 0 < s) (hs1 : s ≤ 1) (hv : 0 < v) :
    rgb_to_hsv (hsv_to_rgb h s v).1 (hsv_to_rgb h s v).2.1 (hsv_to_rgb h s v).2.2 =
      (h, s, v) := by
  have hsne : s ≠ 0 := hs0.ne'
  have hP : v * (1 - s) < v := by nlinarith
  have hRpos : 0 < v - v * (1 - s) := by nlinarith
  rcases lt_or_le (h * 6) 1 with hW | hW1
  · -- wheel position in [0, 1)
    have h60 : 0 ≤ h * 6 := by linarith
    rw [hsv_to_rgb_case0 hsne h60 hW]
    have hf0 : 0 ≤ h * 6 - 0 := by linarith
    have hf1 : h * 6 - 0 < 1 := by linarith
    have hPT : v * (1 - s) ≤ v * (1 - s * (1 - (h * 6 - 0))) := by nlinarith
    have hTv : v * (1 - s * (1 - (h * 6 - 0))) ≤ v := by nlinarith
    have hmax : max v (max (v * (1 - s * (1 - (h * 6 - 0)))) (v * (1 - s))) = v :=
      max_eq_left (max_le hTv hP.le)
    have hmin : min v (min (v * (1 - s * (1 - (h * 6 - 0)))) (v * (1 - s))) = v * (1 - s) := by
      rw [min_eq_right hPT, min_eq_right hP.le]
    unfold rgb_to_hsv
    dsimp only
    rw [hmax, hmin, if_neg hP.ne]
    simp only [eq_self_iff_true, if_true]
    have hh0eq : (v - v * (1 - s)) / (v - v * (1 - s)) -
        (v - v * (1 - s * (1 - (h * 6 - 0)))) / (v - v * (1 - s)) = h * 6 := by
      rw [div_sub_div_same, div_eq_iff hRpos.ne']
      ring
    rw [hh0eq]
    have hfl : ⌊(h * 6 / 6 : ℚ)⌋ = 0 := by
      rw [Int.floor_eq_zero_iff]
      constructor
      · linarith
      · linarith
    rw [Prod.mk.injEq, Prod.mk.injEq]
    refine ⟨?_, ?_, rfl⟩
    · rw [pyMod_one, hfl]
      push_cast
      ring
    · rw [div_eq_iff hv.ne']
      ring
  · rcases lt_or_le (h * 6) 2 with hW | hW2
    · -- wheel position in [1, 2)
      rw [hsv_to_rgb_case1 hsne hW1 hW]
      rcases eq_or_lt_of_le hW1 with hf | hf
      · -- h * 6 = 1: the first component degenerates to v
        have hfeq : h * 6 - 1 = 0 := by linarith
        rw [hfeq]
        norm_num
        have hmax : max v (max v (v * (1 - s))) = v := by
          rw [max_eq_left hP.le, max_self]
        have hmin : min v (min v (v * (1 - s))) = v * (1 - s) := by
          rw [min_eq_right hP.le, min_eq_right hP.le]
        unfold rgb_to_hsv
        dsimp only
        rw [hmax, hmin, if_neg hP.ne]
        simp only [eq_self_iff_true, if_true]
        have hh0eq : (v - v * (1 - s)) / (v - v * (1 - s)) -
            (v - v) / (v - v * (1 - s)) = 1 := by
          rw [div_sub_div_same, div_eq_iff hRpos.ne']
          ring
        rw [hh0eq]
        have hfl : ⌊((1 : ℚ) / 6 : ℚ)⌋ = 0 := by
          rw [Int.floor_eq_zero_iff]
          constructor <;> norm_num
        rw [Prod.mk.injEq, Prod.mk.injEq]
        refine ⟨?_, ?_, rfl⟩
        · rw [pyMod_one, hfl]
          push_cast
          linarith
        · rw [div_eq_iff hv.ne']
          ring
      · -- 1 < h * 6 < 2
        have hQv : v * (1 - s * (h * 6 - 1)) < v := by nlinarith
        have hPQ : v * (1 - s) ≤ v * (1 - s * (h * 6 - 1)) := by nlinarith
        have hmax : max (v * (1 - s * (h * 6 - 1))) (max v (v * (1 - s))) = v := by
          rw [max_eq_left hP.le, max_eq_right hQv.le]
        have hmin : min (v * (1 - s * (h * 6 - 1))) (min v (v * (1 - s))) = v * (1 - s) := by
          rw [min_eq_right hP.le, min_eq_right hPQ]
        unfold rgb_to_hsv
        dsimp only
        rw [hmax, hmin, if_neg hP.ne, if_neg hQv.ne]
        simp only [eq_self_iff_true, if_true]
        have hh0eq : 2 + (v - v * (1 - s * (h * 6 - 1))) / (v - v * (1 - s)) -
            (v - v * (1 - s)) / (v - v * (1 - s)) = h * 6 := by
          field_simp
          ring
        rw [hh0eq]
        have hfl : ⌊(h * 6 / 6 : ℚ)⌋ = 0 := by
          rw [Int.floor_eq_zero_iff]
          constructor
          · linarith
          · linarith
        rw [Prod.mk.injEq, Prod.mk.injEq]
        refine ⟨?_, ?_, rfl⟩
        · rw [pyMod_one, hfl]
          push_cast
          ring
        · rw [div_eq_iff hv.ne']
          ring
    · rcases lt_or_le (h * 6) 3 with hW | hW3
      · -- wheel position in [2, 3)
        rw [hsv_to_rgb_case2 hsne hW2 hW]
        have hf0 : 0 ≤ h * 6 - 2 := by linarith
        have hf1 : h * 6 - 2 < 1 := by linarith
        have hPT : v * (1 - s) ≤ v * (1 - s * (1 - (h * 6 - 2))) := by nlinarith
        have hTv : v * (1 - s * (1 - (h * 6 - 2))) ≤ v := by nlinarith
        have hmax : max (v * (1 - s)) (max v (v * (1 - s * (1 - (h * 6 - 2))))) = v := by
          rw [max_eq_left hTv, max_eq_right hP.le]
        have hmin : min (v * (1 - s)) (min v (v * (1 - s * (1 - (h * 6 - 2))))) =
            v * (1 - s) := by
          rw [min_eq_right hTv, min_eq_left hPT]
        unfold rgb_to_hsv
        dsimp only
        rw [hmax, hmin, if_neg hP.ne, if_neg hP.ne]
        simp only [eq_self_iff_true, if_true]
        have hh0eq : 2 + (v - v * (1 - s)) / (v - v * (1 - s)) -
            (v - v * (1 - s * (1 - (h * 6 - 2)))) / (v - v * (1 - s)) = h * 6 := by
          field_simp
          ring
        rw [hh0eq]
        have hfl : ⌊(h * 6 / 6 : ℚ)⌋ = 0 := by
          rw [Int.floor_eq_zero_iff]
          constructor
          · linarith
          · linarith
        rw [Prod.mk.injEq, Prod.mk.injEq]
        refine ⟨?_, ?_, rfl⟩
        · rw [pyMod_one, hfl]
          push_cast
          ring
        · rw [div_eq_iff hv.ne']
          ring
      · rcases lt_or_le (h * 6) 4 with hW | hW4
        · -- wheel position in [3, 4)
          rw [hsv_to_rgb_case3 hsne hW3 hW]
          rcases eq_or_lt_of_le hW3 with hf | hf
          · -- h * 6 = 3: the middle component degenerates to v
            have hfeq : h * 6 - 3 = 0 := by linarith
            rw [hfeq]
            norm_num
            have hmax : max (v * (1 - s)) (max v v) = v := by
              rw [max_self, max_eq_right hP.le]
            have hmin : min (v * (1 - s)) (min v v) = v * (1 - s) := by
              rw [min_self, min_eq_left hP.le]
            unfold rgb_to_hsv
            dsimp only
            rw [hmax, hmin, if_neg hP.ne, if_neg hP.ne]
            simp only [eq_self_iff_true, if_true]
            have hh0eq : 2 + (v - v * (1 - s)) / (v - v * (1 - s)) -
                (v - v) / (v - v * (1 - s)) = 3 := by
              field_simp
              norm_num
            rw [hh0eq]
            have hfl : ⌊((3 : ℚ) / 6 : ℚ)⌋ = 0 := by
              rw [Int.floor_eq_zero_iff]
              constructor <;> norm_num
            rw [Prod.mk.injEq, Prod.mk.injEq]
            refine ⟨?_, ?_, rfl⟩
            · rw [pyMod_one, hfl]
              push_cast
              linarith
            · rw [div_eq_iff hv.ne']
              ring
          · -- 3 < h * 6 < 4
            have hQv : v * (1 - s * (h * 6 - 3)) < v := by nlinarith
            have hPQ : v * (1 - s) ≤ v * (1 - s * (h * 6 - 3)) := by nlinarith
            have hmax : max (v * (1 - s)) (max (v * (1 - s * (h * 6 - 3))) v) = v := by
              rw [max_eq_right hQv.le, max_eq_right hP.le]
            have hmin : min (v * (1 - s)) (min (v * (1 - s * (h * 6 - 3))) v) =
                v * (1 - s) := by
              rw [min_eq_left hQv.le, min_eq_left hPQ]
            unfold rgb_to_hsv
            dsimp only
            rw [hmax, hmin, if_neg hP.ne, if_neg hP.ne, if_neg hQv.ne]
            have hh0eq : 4 + (v - v * (1 - s * (h * 6 - 3))) / (v - v * (1 - s)) -
                (v - v * (1 - s)) / (v - v * (1 - s)) = h * 6 := by
              field_simp
              ring
            rw [hh0eq]
            have hfl : ⌊(h * 6 / 6 : ℚ)⌋ = 0 := by
              rw [Int.floor_eq_zero_iff]
              constructor
              · linarith
              · linarith
            rw [Prod.mk.injEq, Prod.mk.injEq]
            refine ⟨?_, ?_, rfl⟩
            · rw [pyMod_one, hfl]
              push_cast
              ring
            · rw [div_eq_iff hv.ne']
              ring
        · rcases lt_or_le (h * 6) 5 with hW | hW5
          · -- wheel position in [4, 5)
            rw [hsv_to_rgb_case4 hsne hW4 hW]
            have hf1 : h * 6 - 4 < 1 := by linarith
            have hT4lt : v * (1 - s * (1 - (h * 6 - 4))) < v := by nlinarith
            have hPT4 : v * (1 - s) ≤ v * (1 - s * (1 - (h * 6 - 4))) := by nlinarith
            have hmax : max (v * (1 - s * (1 - (h * 6 - 4)))) (max (v * (1 - s)) v) = v := by
              rw [max_eq_right hP.le, max_eq_right hT4lt.le]
            have hmin : min (v * (1 - s * (1 - (h * 6 - 4)))) (min (v * (1 - s)) v) =
                v * (1 - s) := by
              rw [min_eq_left hP.le, min_eq_right hPT4]
            unfold rgb_to_hsv
            dsimp only
            rw [hmax, hmin, if_neg hP.ne, if_neg hT4lt.ne, if_neg hP.ne]
            have hh0eq : 4 + (v - v * (1 - s)) / (v - v * (1 - s)) -
                (v - v * (1 - s * (1 - (h * 6 - 4)))) / (v - v * (1 - s)) = h * 6 := by
              field_simp
              ring
            rw [hh0eq]
            have hfl : ⌊(h * 6 / 6 : ℚ)⌋ = 0 := by
              rw [Int.floor_eq_zero_iff]
              constructor
              · linarith
              · linarith
            rw [Prod.mk.injEq, Prod.mk.injEq]
            refine ⟨?_, ?_, rfl⟩
            · rw [pyMod_one, hfl]
              push_cast
              ring
            · rw [div_eq_iff hv.ne']
              ring
          · -- wheel position in [5, 6)
            have hW6 : h * 6 < 6 := by linarith
            rw [hsv_to_rgb_case5 hsne hW5 hW6]
            have hf0 : 0 ≤ h * 6 - 5 := by linarith
            have hf1 : h * 6 - 5 < 1 := by linarith
            have hQ5v : v * (1 - s * (h * 6 - 5)) ≤ v := by nlinarith
            have hPQ5 : v * (1 - s) ≤ v * (1 - s * (h * 6 - 5)) := by nlinarith
            have hmax : max v (max (v * (1 - s)) (v * (1 - s * (h * 6 - 5)))) = v :=
              max_eq_left (max_le hP.le hQ5v)
            have hmin : min v (min (v * (1 - s)) (v * (1 - s * (h * 6 - 5)))) =
                v * (1 - s) := by
              rw [min_eq_left hPQ5, min_eq_right hP.le]
            unfold rgb_to_hsv
            dsimp only
            rw [hmax, hmin, if_neg hP.ne]
            simp only [eq_self_iff_true, if_true]
            have hh0eq : (v - v * (1 - s * (h * 6 - 5))) / (v - v * (1 - s)) -
                (v - v * (1 - s)) / (v - v * (1 - s)) = h * 6 - 6 := by
              field_simp
              ring
            rw [hh0eq]
            have hfl : ⌊((h * 6 - 6) / 6 : ℚ)⌋ = -1 := by
              rw [Int.floor_eq_iff]
              constructor
              · push_cast
                linarith
              · push_cast
                linarith
            rw [Prod.mk.injEq, Prod.mk.injEq]
            refine ⟨?_, ?_, rfl⟩
            · rw [pyMod_one, hfl]
              push_cast
              ring
            · rw [div_eq_iff hv.ne']
              ring

/-! ### Hue and saturation facts used for the clamp frame property -/

theorem hue_lt_one (r g b : ℚ) : (rgb_to_hsv r g b).1 < 1 := by
  by_cases heq : min r (min g b) = max r (max g b)
  · simp only [rgb_to_hsv, if_pos heq]
    norm_num
  · simp only [rgb_to_hsv, if_neg heq]
    exact pyMod_one_lt_one _

theorem sat_pos_of_ne (r g b : ℚ) (h0 : 0 ≤ min r (min g b))
    (hne : ¬ min r (min g b) = max r (max g b)) : 0 < (rgb_to_hsv r g b).2.1 := by
  have hle : min r (min g b) ≤ max r (max g b) :=
    le_trans (min_le_left _ _) (le_max_left _ _)
  have hlt : min r (min g b) < max r (max g b) := lt_of_le_of_ne hle hne
  have hm0 : 0 < max r (max g b) := lt_of_le_of_lt h0 hlt
  simp only [rgb_to_hsv, if_neg hne]
  exact div_pos (by linarith) hm0

/-- Theorem: `clamp` rewrites only the value channel: the real-valued color it
quantizes is `hsv_to_rgb` of the input hue, the input saturation and the
clamped value, and (for a non-gray input and a positive band) converting that
color back to HSV recovers the input hue and saturation exactly. -/
theorem clamp_only_value (c : Q3) (mn mx : ℚ)
    (hc1 : 0 ≤ c.1) (hc2 : 0 ≤ c.2.1) (hc3 : 0 ≤ c.2.2)
    (hgray : ¬ min (down_scale c.1) (min (down_scale c.2.1) (down_scale c.2.2)) =
      max (down_scale c.1) (max (down_scale c.2.1) (down_scale c.2.2)))
    (hmn : 0 < mn) (hmm : mn ≤ mx) :
    clamp c mn mx = up3 (hsv_to_rgb
      (rgb_to_hsv (down_scale c.1) (down_scale c.2.1) (down_scale c.2.2)).1
      (rgb_to_hsv (down_scale c.1) (down_scale c.2.1) (down_scale c.2.2)).2.1
      (min (max (down_scale mn)
        (rgb_to_hsv (down_scale c.1) (down_scale c.2.1) (down_scale c.2.2)).2.2)
        (down_scale mx))) ∧
    rgb_to_hsv
      (hsv_to_rgb
        (rgb_to_hsv (down_scale c.1) (down_scale c.2.1) (down_scale c.2.2)).1
        (rgb_to_hsv (down_scale c.1) (down_scale c.2.1) (down_scale c.2.2)).2.1
        (min (max (down_scale mn)
          (rgb_to_hsv (down_scale c.1) (down_scale c.2.1) (down_scale c.2.2)).2.2)
          (down_scale mx))).1
      (hsv_to_rgb
        (rgb_to_hsv (down_scale c.1) (down_scale c.2.1) (down_scale c.2.2)).1
        (rgb_to_hsv (down_scale c.1) (down_scale c.2.1) (down_scale c.2.2)).2.1
        (min (max (down_scale mn)
          (rgb_to_hsv (down_scale c.1) (down_scale c.2.1) (down_scale c.2.2)).2.2)
          (down_scale mx))).2.1
      (hsv_to_rgb
        (rgb_to_hsv (down_scale c.1) (down_scale c.2.1) (down_scale c.2.2)).1
        (rgb_to_hsv (down_scale c.1) (down_scale c.2.1) (down_scale c.2.2)).2.1
        (min (max (down_scale mn)
          (rgb_to_hsv (down_scale c.1) (down_scale c.2.1) (down_scale c.2.2)).2.2)
          (down_scale mx))).2.2 =
      ((rgb_to_hsv (down_scale c.1) (down_scale c.2.1) (down_scale c.2.2)).1,
       (rgb_to_hsv (down_scale c.1) (down_scale c.2.1) (down_scale c.2.2)).2.1,
       min (max (down_scale mn)
         (rgb_to_hsv (down_scale c.1) (down_scale c.2.1) (down_scale c.2.2)).2.2)
         (down_scale mx)) := by
  have hp := rgb_to_hsv_props (down_scale c.1) (down_scale c.2.1) (down_scale c.2.2)
    (down_scale_nonneg hc1) (down_scale_nonneg hc2) (down_scale_nonneg hc3)
  have hmin0 : 0 ≤ min (down_scale c.1) (min (down_scale c.2.1) (down_scale c.2.2)) :=
    le_min (down_scale_nonneg hc1)
      (le_min (down_scale_nonneg hc2) (down_scale_nonneg hc3))
  have hmnq : 0 < down_scale mn := by
    unfold down_scale SCALE
    positivity
  have hV : 0 < min (max (down_scale mn)
      (rgb_to_hsv (down_scale c.1) (down_scale c.2.1) (down_scale c.2.2)).2.2)
      (down_scale mx) :=
    lt_of_lt_of_le hmnq (le_min (le_max_left _ _) (down_scale_mono hmm))
  exact ⟨rfl, rgb_of_hsv_roundtrip _ _ _ hp.1 (hue_lt_one _ _ _)
    (sat_pos_of_ne _ _ _ hmin0 hgray) hp.2.2.1 hV⟩

/-! ## Claim theorems -/

/-- C1: for every image input (pixel list) and valid parameters
(n ≥ 1, 0 ≤ min_v ≤ max_v ≤ 255), and a Quantization Engine meeting its
section 4.3 contract of returning exactly n centroids, the palette assembler
`colorz` returns a list of exactly n (base, bold) ColorPair values. -/
theorem colorz_returns_n_pairs (pixels : List RGBi) (km : List Q3 → ℕ → List Q3)
    (n : ℕ) (mn mx ba : ℚ) (oc : Bool)
    (hn : 1 ≤ n) (hmn : 0 ≤ mn) (hmm : mn ≤ mx) (hmx : mx ≤ 255)
    (hkm : ∀ obs : List Q3, (km obs n).length = n) :
    (colorz pixels km n mn mx ba oc).length = n :=
  colorz_length pixels km n mn mx ba oc hkm

theorem colorz_returns_n_pairs_witness :
    1 ≤ 1 ∧ (0 : ℚ) ≤ 0 ∧ (0 : ℚ) ≤ 255 ∧ (255 : ℚ) ≤ 255 ∧
    (∀ obs : List Q3, (kmeansMeanOne obs 1).length = 1) ∧
    (colorz [(255, 255, 255)] kmeansMeanOne 1 0 255 50 true).length = 1 :=
  ⟨le_rfl, le_rfl, by norm_num, le_rfl, fun _ => rfl,
    colorz_returns_n_pairs [(255, 255, 255)] kmeansMeanOne 1 0 255 50 true
      le_rfl le_rfl (by norm_num) le_rfl (fun _ => rfl)⟩

/-- C2: the spec requires every component of `brighten(color, bold_add)` to be
clamped into [0,255] at the final RGB boundary.  The code performs no such
clamp: at the failing input color (255,255,255) with the default
bold_add = 50, `brighten` returns (305,305,305), whose components escape
[0,255] (and are later formatted as invalid 3-digit hex channels). -/
theorem brighten_escapes_range :
    brighten (toQ3 (255, 255, 255)) 50 = (305, 305, 305) ∧ ¬ ((305 : ℤ) ≤ 255) := by
  constructor
  · norm_num [brighten, toQ3, rgb_to_hsv, hsv_to_rgb, down_scale, up_scale, up3, pyInt,
      SCALE]
  · norm_num

/-- C3 counterexample: `clamp` with min_v = 200 > max_v = 100 does not fail:
it silently returns the color (100,0,0) for the input (255,0,0).  No
InvalidParameter check exists anywhere in the code. -/
theorem clamp_inverted_band_returns_color :
    clamp (toQ3 (255, 0, 0)) 200 100 = (100, 0, 0) := by
  norm_num [clamp, toQ3, rgb_to_hsv, hsv_to_rgb, down_scale, up_scale, up3, pyInt, pyMod,
    SCALE]

/-- C3 amended: the core performs no parameter validation at all.  With an
inverted band max_v < min_v (both in [0,255]) `clamp` silently returns a
color whose value channel equals max_v, because the code applies `min` after
`max`. -/
theorem clamp_no_validation (c : RGBi) (mn mx : ℤ)
    (hc1 : 0 ≤ c.1 ∧ c.1 ≤ 255) (hc2 : 0 ≤ c.2.1 ∧ c.2.1 ≤ 255)
    (hc3 : 0 ≤ c.2.2 ∧ c.2.2 ≤ 255)
    (hmx : 0 ≤ mx) (hlt : mx < mn) (hmn : mn ≤ 255) :
    max3 (clamp (toQ3 c) (mn : ℚ) (mx : ℚ)) = mx := by
  apply clamp_inverted_band (toQ3 c) mn mx ?_ ?_ ?_ hmx hlt
  · show (0 : ℚ) ≤ ((c.1 : ℚ))
    exact_mod_cast hc1.1
  · show (0 : ℚ) ≤ ((c.2.1 : ℚ))
    exact_mod_cast hc2.1
  · show (0 : ℚ) ≤ ((c.2.2 : ℚ))
    exact_mod_cast hc3.1

theorem clamp_no_validation_witness :
    ((0 : ℤ) ≤ 255 ∧ (255 : ℤ) ≤ 255) ∧ ((0 : ℤ) ≤ 0 ∧ (0 : ℤ) ≤ 255) ∧
    ((0 : ℤ) ≤ 0 ∧ (0 : ℤ) ≤ 255) ∧ (0 : ℤ) ≤ 100 ∧ (100 : ℤ) < 200 ∧ (200 : ℤ) ≤ 255 ∧
    max3 (clamp (toQ3 (255, 0, 0)) ((200 : ℤ) : ℚ) ((100 : ℤ) : ℚ)) = 100 :=
  ⟨⟨by norm_num, by norm_num⟩, ⟨le_rfl, by norm_num⟩, ⟨le_rfl, by norm_num⟩,
    by norm_num, by norm_num, by norm_num,
    clamp_no_validation (255, 0, 0) 200 100 ⟨by norm_num, by norm_num⟩
      ⟨le_rfl, by norm_num⟩ ⟨le_rfl, by norm_num⟩ (by norm_num) (by norm_num) (by norm_num)⟩

/-- C6: for every RGBColor and all integers 0 ≤ min_v ≤ max_v ≤ 255, the
value channel (maximum component on the 0-255 scale after re-upscaling) of
`clamp(color, min_v, max_v)` lies within [min_v, max_v] inclusive. -/
theorem clamp_value_channel_in_band (c : RGBi) (mn mx : ℤ)
    (hc1 : 0 ≤ c.1 ∧ c.1 ≤ 255) (hc2 : 0 ≤ c.2.1 ∧ c.2.1 ≤ 255)
    (hc3 : 0 ≤ c.2.2 ∧ c.2.2 ≤ 255)
    (hmn : 0 ≤ mn) (hmm : mn ≤ mx) (hmx : mx ≤ 255) :
    mn ≤ max3 (clamp (toQ3 c) (mn : ℚ) (mx : ℚ)) ∧
    max3 (clamp (toQ3 c) (mn : ℚ) (mx : ℚ)) ≤ mx := by
  have h := clamp_band_int (toQ3 c) mn mx
    (by show (0 : ℚ) ≤ ((c.1 : ℚ)); exact_mod_cast hc1.1)
    (by show (0 : ℚ) ≤ ((c.2.1 : ℚ)); exact_mod_cast hc2.1)
    (by show (0 : ℚ) ≤ ((c.2.2 : ℚ)); exact_mod_cast hc3.1)
    hmn hmm
  exact ⟨h.1, h.2.1⟩

theorem clamp_value_channel_in_band_witness :
    ((0 : ℤ) ≤ 10 ∧ (10 : ℤ) ≤ 255) ∧ ((0 : ℤ) ≤ 20 ∧ (20 : ℤ) ≤ 255) ∧
    ((0 : ℤ) ≤ 30 ∧ (30 : ℤ) ≤ 255) ∧ (0 : ℤ) ≤ 170 ∧ (170 : ℤ) ≤ 200 ∧ (200 : ℤ) ≤ 255 ∧
    (170 ≤ max3 (clamp (toQ3 (10, 20, 30)) ((170 : ℤ) : ℚ) ((200 : ℤ) : ℚ)) ∧
      max3 (clamp (toQ3 (10, 20, 30)) ((170 : ℤ) : ℚ) ((200 : ℤ) : ℚ)) ≤ 200) :=
  ⟨⟨by norm_num, by norm_num⟩, ⟨by norm_num, by norm_num⟩, ⟨by norm_num, by norm_num⟩,
    by norm_num, by norm_num, by norm_num,
    clamp_value_channel_in_band (10, 20, 30) 170 200 ⟨by norm_num, by norm_num⟩
      ⟨by norm_num, by norm_num⟩ ⟨by norm_num, by norm_num⟩
      (by norm_num) (by norm_num) (by norm_num)⟩

/-- C8: for every RGB triple of integers in [0,255], downscaling by 256,
applying `rgb_to_hsv` then `hsv_to_rgb`, and upscaling (x256, integer
truncation) reproduces the original triple within ±1 per channel (here the
round trip is in fact exact over the rationals). -/
theorem rgb_roundtrip_within_one (d : RGBi)
    (hc1 : 0 ≤ d.1 ∧ d.1 ≤ 255) (hc2 : 0 ≤ d.2.1 ∧ d.2.1 ≤ 255)
    (hc3 : 0 ≤ d.2.2 ∧ d.2.2 ≤ 255) :
    ((up3 (hsv_to_rgb
        (rgb_to_hsv (down_scale ((d.1 : ℚ))) (down_scale ((d.2.1 : ℚ)))
          (down_scale ((d.2.2 : ℚ)))).1
        (rgb_to_hsv (down_scale ((d.1 : ℚ))) (down_scale ((d.2.1 : ℚ)))
          (down_scale ((d.2.2 : ℚ)))).2.1
        (rgb_to_hsv (down_scale ((d.1 : ℚ))) (down_scale ((d.2.1 : ℚ)))
          (down_scale ((d.2.2 : ℚ)))).2.2)).1 - d.1).natAbs ≤ 1 ∧
    ((up3 (hsv_to_rgb
        (rgb_to_hsv (down_scale ((d.1 : ℚ))) (down_scale ((d.2.1 : ℚ)))
          (down_scale ((d.2.2 : ℚ)))).1
        (rgb_to_hsv (down_scale ((d.1 : ℚ))) (down_scale ((d.2.1 : ℚ)))
          (down_scale ((d.2.2 : ℚ)))).2.1
        (rgb_to_hsv (down_scale ((d.1 : ℚ))) (down_scale ((d.2.1 : ℚ)))
          (down_scale ((d.2.2 : ℚ)))).2.2)).2.1 - d.2.1).natAbs ≤ 1 ∧
    ((up3 (hsv_to_rgb
        (rgb_to_hsv (down_scale ((d.1 : ℚ))) (down_scale ((d.2.1 : ℚ)))
          (down_scale ((d.2.2 : ℚ)))).1
        (rgb_to_hsv (down_scale ((d.1 : ℚ))) (down_scale ((d.2.1 : ℚ)))
          (down_scale ((d.2.2 : ℚ)))).2.1
        (rgb_to_hsv (down_scale ((d.1 : ℚ))) (down_scale ((d.2.1 : ℚ)))
          (down_scale ((d.2.2 : ℚ)))).2.2)).2.2 - d.2.2).natAbs ≤ 1 := by
  have h := roundtrip_int d hc1.1 hc2.1 hc3.1
  rw [h]
  simp

theorem rgb_roundtrip_within_one_witness :
    ((0 : ℤ) ≤ 10 ∧ (10 : ℤ) ≤ 255) ∧ ((0 : ℤ) ≤ 20 ∧ (20 : ℤ) ≤ 255) ∧
    ((0 : ℤ) ≤ 30 ∧ (30 : ℤ) ≤ 255) ∧
    ((up3 (hsv_to_rgb
        (rgb_to_hsv (down_scale ((((10 : ℤ), (20 : ℤ), (30 : ℤ)).1 : ℚ)))
          (down_scale ((((10 : ℤ), (20 : ℤ), (30 : ℤ)).2.1 : ℚ)))
          (down_scale ((((10 : ℤ), (20 : ℤ), (30 : ℤ)).2.2 : ℚ)))).1
        (rgb_to_hsv (down_scale ((((10 : ℤ), (20 : ℤ), (30 : ℤ)).1 : ℚ)))
          (down_scale ((((10 : ℤ), (20 : ℤ), (30 : ℤ)).2.1 : ℚ)))
          (down_scale ((((10 : ℤ), (20 : ℤ), (30 : ℤ)).2.2 : ℚ)))).2.1
        (rgb_to_hsv (down_scale ((((10 : ℤ), (20 : ℤ), (30 : ℤ)).1 : ℚ)))
          (down_scale ((((10 : ℤ), (20 : ℤ), (30 : ℤ)).2.1 : ℚ)))
          (down_scale ((((10 : ℤ), (20 : ℤ), (30 : ℤ)).2.2 : ℚ)))).2.2)).1 -
      ((10 : ℤ), (20 : ℤ), (30 : ℤ)).1).natAbs ≤ 1 :=
  ⟨⟨by norm_num, by norm_num⟩, ⟨by norm_num, by norm_num⟩, ⟨by norm_num, by norm_num⟩,
    (rgb_roundtrip_within_one ((10 : ℤ), (20 : ℤ), (30 : ℤ))
      ⟨by norm_num, by norm_num⟩ ⟨by norm_num, by norm_num⟩
      ⟨by norm_num, by norm_num⟩).1⟩

/-- C9: clamping is idempotent: for every RGBColor and every band of
integers 0 ≤ min_v ≤ max_v ≤ 255, clamping an already-clamped color with the
same band reproduces it exactly. -/
theorem clamp_idempotent_same_band (c : RGBi) (mn mx : ℤ)
    (hc1 : 0 ≤ c.1 ∧ c.1 ≤ 255) (hc2 : 0 ≤ c.2.1 ∧ c.2.1 ≤ 255)
    (hc3 : 0 ≤ c.2.2 ∧ c.2.2 ≤ 255)
    (hmn : 0 ≤ mn) (hmm : mn ≤ mx) (hmx : mx ≤ 255) :
    clamp (toQ3 (clamp (toQ3 c) (mn : ℚ) (mx : ℚ))) (mn : ℚ) (mx : ℚ) =
      clamp (toQ3 c) (mn : ℚ) (mx : ℚ) :=
  clamp_idem_int c mn mx hc1.1 hc2.1 hc3.1 hmn hmm

theorem clamp_idempotent_same_band_witness :
    ((0 : ℤ) ≤ 10 ∧ (10 : ℤ) ≤ 255) ∧ ((0 : ℤ) ≤ 20 ∧ (20 : ℤ) ≤ 255) ∧
    ((0 : ℤ) ≤ 30 ∧ (30 : ℤ) ≤ 255) ∧ (0 : ℤ) ≤ 170 ∧ (170 : ℤ) ≤ 200 ∧ (200 : ℤ) ≤ 255 ∧
    clamp (toQ3 (clamp (toQ3 (10, 20, 30)) ((170 : ℤ) : ℚ) ((200 : ℤ) : ℚ)))
      ((170 : ℤ) : ℚ) ((200 : ℤ) : ℚ) =
      clamp (toQ3 (10, 20, 30)) ((170 : ℤ) : ℚ) ((200 : ℤ) : ℚ) :=
  ⟨⟨by norm_num, by norm_num⟩, ⟨by norm_num, by norm_num⟩, ⟨by norm_num, by norm_num⟩,
    by norm_num, by norm_num, by norm_num,
    clamp_idempotent_same_band (10, 20, 30) 170 200 ⟨by norm_num, by norm_num⟩
      ⟨by norm_num, by norm_num⟩ ⟨by norm_num, by norm_num⟩
      (by norm_num) (by norm_num) (by norm_num)⟩

set_option maxHeartbeats 2000000 in
/-- C4 counterexample: the color (0,0,0) occupies k = 2 of the 3 pixels, yet
the list handed to the Quantization Engine (the clamped extraction output)
contains it only once: counts are discarded, repetition does not encode
pixel frequency. -/
theorem engine_input_unweighted_cex :
    ((get_colors [((0 : ℤ), (0 : ℤ), (0 : ℤ)), (0, 0, 0), (255, 255, 255)]).map
      (fun c => clamp (toQ3 c) 0 255)).count ((0 : ℤ), (0 : ℤ), (0 : ℤ)) = 1 ∧
    ([((0 : ℤ), (0 : ℤ), (0 : ℤ)), (0, 0, 0), (255, 255, 255)] : List RGBi).count
      (0, 0, 0) = 2 ∧
    ((get_colors [((0 : ℤ), (0 : ℤ), (0 : ℤ)), (0, 0, 0), (255, 255, 255)]).map
      (fun c => clamp (toQ3 c) 0 255)).length = 2 ∧
    ([((0 : ℤ), (0 : ℤ), (0 : ℤ)), (0, 0, 0), (255, 255, 255)] : List RGBi).length = 3 := by
  norm_num [get_colors, distinctColorsAux, clamp, toQ3, rgb_to_hsv, hsv_to_rgb, down_scale,
    up_scale, up3, pyInt, pyMod, SCALE, List.count_cons]

/-- C4 amended: the list handed to the Quantization Engine contains one
sample per DISTINCT pixel color: `get_colors` deduplicates (its output has no
duplicates and contains exactly the colors occurring in the image), the
engine input has one entry per distinct color, and pixel counts are
discarded. -/
theorem engine_input_one_per_distinct_color (pixels : List RGBi) (mn mx : ℚ) :
    (get_colors pixels).Nodup ∧
    (∀ c : RGBi, c ∈ get_colors pixels ↔ c ∈ pixels) ∧
    ((get_colors pixels).map (fun c => clamp (toQ3 c) mn mx)).length =
      (get_colors pixels).length :=
  ⟨get_colors_nodup pixels, mem_get_colors pixels, List.length_map _ _⟩

set_option maxHeartbeats 2000000 in
/-- C5 counterexample: with order_colors = false the raw real-valued cluster
mean is exposed untruncated: on a two-pixel image with colors (0,0,0) and
(1,1,1) and n = 1 the single exposed base centroid is (1/2, 1/2, 1/2), which
does not have integer components. -/
theorem colorz_unordered_centroid_not_integer :
    colorz [((0 : ℤ), (0 : ℤ), (0 : ℤ)), (1, 1, 1)] kmeansMeanOne 1 0 255 0 false =
      [((1 / 2, 1 / 2, 1 / 2), (0, 0, 0))] ∧ ((1 : ℚ) / 2).den ≠ 1 := by
  constructor
  · norm_num [colorz, get_colors, distinctColorsAux, kmeansMeanOne, clamp, brighten, toQ3,
      rgb_to_hsv, hsv_to_rgb, down_scale, up_scale, up3, pyInt, pyMod, SCALE, List.zip]
  · norm_num

/-- C5 amended: on the order_colors = true path every exposed base centroid
has integer components, because the hue-ordering step re-upscales through
integer truncation (the bold members are integer tuples on both paths by
construction of `brighten`). -/
theorem colorz_ordered_centroids_integer (pixels : List RGBi)
    (km : List Q3 → ℕ → List Q3) (n : ℕ) (mn mx ba : ℚ) :
    ∀ p ∈ colorz pixels km n mn mx ba true,
      p.1.1.den = 1 ∧ p.1.2.1.den = 1 ∧ p.1.2.2.den = 1 :=
  colorz_ordered_base_int pixels km n mn mx ba

set_option maxHeartbeats 2000000 in
theorem colorz_ordered_centroids_integer_witness :
    (((0 : ℚ), (0 : ℚ), (0 : ℚ)), ((0 : ℤ), (0 : ℤ), (0 : ℤ))) ∈
      colorz [((0 : ℤ), (0 : ℤ), (0 : ℤ)), (1, 1, 1)] kmeansMeanOne 1 0 255 0 true ∧
    (((0 : ℚ)).den = 1 ∧ ((0 : ℚ)).den = 1 ∧ ((0 : ℚ)).den = 1) := by
  have heq : colorz [((0 : ℤ), (0 : ℤ), (0 : ℤ)), (1, 1, 1)] kmeansMeanOne 1 0 255 0 true =
      [(((0 : ℚ), (0 : ℚ), (0 : ℚ)), ((0 : ℤ), (0 : ℤ), (0 : ℤ)))] := by
    norm_num [colorz, get_colors, distinctColorsAux, kmeansMeanOne, clamp, brighten, toQ3,
      order_by_hue, rgb_to_hsv, hsv_to_rgb, down_scale, up_scale, up3, pyInt, pyMod, SCALE,
      List.zip, List.insertionSort, List.orderedInsert]
  have hmem : (((0 : ℚ), (0 : ℚ), (0 : ℚ)), ((0 : ℤ), (0 : ℤ), (0 : ℤ))) ∈
      colorz [((0 : ℤ), (0 : ℤ), (0 : ℤ)), (1, 1, 1)] kmeansMeanOne 1 0 255 0 true := by
    rw [heq]
    exact List.mem_singleton.mpr rfl
  exact ⟨hmem, colorz_ordered_centroids_integer [((0 : ℤ), (0 : ℤ), (0 : ℤ)), (1, 1, 1)]
    kmeansMeanOne 1 0 255 0 _ hmem⟩

/-- C7: for every list of RGBColors, `order_by_hue` returns exactly the
stable ascending sort of the colors by their HSV hue component (ties keep
their original relative order, which is what equality with insertion sort by
`hue ≤ hue` expresses), the output is a permutation of the input, and the hue
components of the output are non-decreasing. -/
theorem order_by_hue_stable_sorted (l : List RGBi)
    (hb : ∀ d ∈ l, (0 ≤ d.1 ∧ d.1 ≤ 255) ∧ (0 ≤ d.2.1 ∧ d.2.1 ≤ 255) ∧
      (0 ≤ d.2.2 ∧ d.2.2 ≤ 255)) :
    order_by_hue (l.map toQ3) = l.insertionSort hueLEi ∧
    (order_by_hue (l.map toQ3)).Perm l ∧
    ((order_by_hue (l.map toQ3)).map fun d => hueOf (toQ3 d)).Pairwise (· ≤ ·) :=
  order_by_hue_spec l fun d hd =>
    ⟨by exact_mod_cast ((hb d hd).1.1 : _), ((hb d hd).2.1.1), ((hb d hd).2.2.1)⟩

theorem order_by_hue_stable_sorted_witness :
    (∀ d ∈ ([((0 : ℤ), (0 : ℤ), (255 : ℤ)), (255, 0, 0)] : List RGBi),
      (0 ≤ d.1 ∧ d.1 ≤ 255) ∧ (0 ≤ d.2.1 ∧ d.2.1 ≤ 255) ∧ (0 ≤ d.2.2 ∧ d.2.2 ≤ 255)) ∧
    order_by_hue (([((0 : ℤ), (0 : ℤ), (255 : ℤ)), (255, 0, 0)] : List RGBi).map toQ3) =
      ([((0 : ℤ), (0 : ℤ), (255 : ℤ)), (255, 0, 0)] : List RGBi).insertionSort hueLEi := by
  have hb : ∀ d ∈ ([((0 : ℤ), (0 : ℤ), (255 : ℤ)), (255, 0, 0)] : List RGBi),
      (0 ≤ d.1 ∧ d.1 ≤ 255) ∧ (0 ≤ d.2.1 ∧ d.2.1 ≤ 255) ∧ (0 ≤ d.2.2 ∧ d.2.2 ≤ 255) := by
    decide
  exact ⟨hb, (order_by_hue_stable_sorted _ hb).1⟩

set_option maxHeartbeats 1000000 in
/-- C10 counterexample: `clamp` does not leave the exposed color's hue and
saturation exactly intact: clamping (10,20,30) into [170,200] yields
(56,113,170), whose recomputed saturation (57/85) differs from the input
saturation (2/3) because of integer truncation in the up-scaling step. -/
theorem clamp_saturation_not_exact_cex :
    clamp (toQ3 (10, 20, 30)) 170 200 = (56, 113, 170) ∧
    satOf (toQ3 (56, 113, 170)) = 57 / 85 ∧ satOf (toQ3 (10, 20, 30)) = 2 / 3 ∧
    ¬ satOf (toQ3 (56, 113, 170)) = satOf (toQ3 (10, 20, 30)) := by
  refine ⟨?_, ?_, ?_, ?_⟩
  · norm_num [clamp, toQ3, rgb_to_hsv, hsv_to_rgb, down_scale, up_scale, up3, pyInt, pyMod,
      SCALE, Int.floor_eq_iff]
  · norm_num [satOf, toQ3, rgb_to_hsv, down_scale, SCALE]
  · norm_num [satOf, toQ3, rgb_to_hsv, down_scale, SCALE]
  · norm_num [satOf, toQ3, rgb_to_hsv, down_scale, SCALE]

/-- C10 amended: `clamp` rewrites only the HSV value channel: the real-valued
color it quantizes is exactly `hsv_to_rgb` of (input hue, input saturation,
clamped value), and for a non-gray input with a positive band, converting
that real-valued color back to HSV recovers the input hue and saturation
exactly; only the final integer truncation perturbs the exposed color's
recomputed hue/saturation. -/
theorem clamp_rewrites_only_value_channel (c : Q3) (mn mx : ℚ)
    (hc1 : 0 ≤ c.1) (hc2 : 0 ≤ c.2.1) (hc3 : 0 ≤ c.2.2)
    (hgray : ¬ min (down_scale c.1) (min (down_scale c.2.1) (down_scale c.2.2)) =
      max (down_scale c.1) (max (down_scale c.2.1) (down_scale c.2.2)))
    (hmn : 0 < mn) (hmm : mn ≤ mx) :
    clamp c mn mx = up3 (hsv_to_rgb
      (rgb_to_hsv (down_scale c.1) (down_scale c.2.1) (down_scale c.2.2)).1
      (rgb_to_hsv (down_scale c.1) (down_scale c.2.1) (down_scale c.2.2)).2.1
      (min (max (down_scale mn)
        (rgb_to_hsv (down_scale c.1) (down_scale c.2.1) (down_scale c.2.2)).2.2)
        (down_scale mx))) ∧
    rgb_to_hsv
      (hsv_to_rgb
        (rgb_to_hsv (down_scale c.1) (down_scale c.2.1) (down_scale c.2.2)).1
        (rgb_to_hsv (down_scale c.1) (down_scale c.2.1) (down_scale c.2.2)).2.1
        (min (max (down_scale mn)
          (rgb_to_hsv (down_scale c.1) (down_scale c.2.1) (down_scale c.2.2)).2.2)
          (down_scale mx))).1
      (hsv_to_rgb
        (rgb_to_hsv (down_scale c.1) (down_scale c.2.1) (down_scale c.2.2)).1
        (rgb_to_hsv (down_scale c.1) (down_scale c.2.1) (down_scale c.2.2)).2.1
        (min (max (down_scale mn)
          (rgb_to_hsv (down_scale c.1) (down_scale c.2.1) (down_scale c.2.2)).2.2)
          (down_scale mx))).2.1
      (hsv_to_rgb
        (rgb_to_hsv (down_scale c.1) (down_scale c.2.1) (down_scale c.2.2)).1
        (rgb_to_hsv (down_scale c.1) (down_scale c.2.1) (down_scale c.2.2)).2.1
        (min (max (down_scale mn)
          (rgb_to_hsv (down_scale c.1) (down_scale c.2.1) (down_scale c.2.2)).2.2)
          (down_scale mx))).2.2 =
      ((rgb_to_hsv (down_scale c.1) (down_scale c.2.1) (down_scale c.2.2)).1,
       (rgb_to_hsv (down_scale c.1) (down_scale c.2.1) (down_scale c.2.2)).2.1,
       min (max (down_scale mn)
         (rgb_to_hsv (down_scale c.1) (down_scale c.2.1) (down_scale c.2.2)).2.2)
         (down_scale mx)) :=
  clamp_only_value c mn mx hc1 hc2 hc3 hgray hmn hmm

set_option maxHeartbeats 1000000 in
theorem clamp_rewrites_only_value_channel_witness :
    ((0 : ℚ) ≤ (toQ3 (10, 20, 30)).1 ∧ (0 : ℚ) ≤ (toQ3 (10, 20, 30)).2.1 ∧
      (0 : ℚ) ≤ (toQ3 (10, 20, 30)).2.2) ∧
    (¬ min (down_scale (toQ3 (10, 20, 30)).1)
        (min (down_scale (toQ3 (10, 20, 30)).2.1) (down_scale (toQ3 (10, 20, 30)).2.2)) =
      max (down_scale (toQ3 (10, 20, 30)).1)
        (max (down_scale (toQ3 (10, 20, 30)).2.1) (down_scale (toQ3 (10, 20, 30)).2.2))) ∧
    (0 : ℚ) < 170 ∧ (170 : ℚ) ≤ 200 ∧
    clamp (toQ3 (10, 20, 30)) 170 200 = up3 (hsv_to_rgb
      (rgb_to_hsv (down_scale (toQ3 (10, 20, 30)).1) (down_scale (toQ3 (10, 20, 30)).2.1)
        (down_scale (toQ3 (10, 20, 30)).2.2)).1
      (rgb_to_hsv (down_scale (toQ3 (10, 20, 30)).1) (down_scale (toQ3 (10, 20, 30)).2.1)
        (down_scale (toQ3 (10, 20, 30)).2.2)).2.1
      (min (max (down_scale 170)
        (rgb_to_hsv (down_scale (toQ3 (10, 20, 30)).1) (down_scale (toQ3 (10, 20, 30)).2.1)
          (down_scale (toQ3 (10, 20, 30)).2.2)).2.2)
        (down_scale 200))) := by
  have hc : (0 : ℚ) ≤ (toQ3 (10, 20, 30)).1 ∧ (0 : ℚ) ≤ (toQ3 (10, 20, 30)).2.1 ∧
      (0 : ℚ) ≤ (toQ3 (10, 20, 30)).2.2 := by
    norm_num [toQ3]
  have hgray : ¬ min (down_scale (toQ3 (10, 20, 30)).1)
      (min (down_scale (toQ3 (10, 20, 30)).2.1) (down_scale (toQ3 (10, 20, 30)).2.2)) =
      max (down_scale (toQ3 (10, 20, 30)).1)
      (max (down_scale (toQ3 (10, 20, 30)).2.1) (down_scale (toQ3 (10, 20, 30)).2.2)) := by
    norm_num [toQ3, down_scale, SCALE]
  exact ⟨hc, hgray, by norm_num, by norm_num,
    (clamp_rewrites_only_value_channel (toQ3 (10, 20, 30)) 170 200
      hc.1 hc.2.1 hc.2.2 hgray (by norm_num) (by norm_num)).1⟩

end Colorz
